import Mathlib

/-!
Verification of the recipe-management API (Django REST Framework app).

Shallow embedding of the request-scoped authorization and
relational-attribute reconciliation logic:
  - `app/recipe/views.py`    (RecipeViewSet, BaseRecipeAttributesViewSet,
                              TagViewSet, IngredientViewSet)
  - `app/recipe/serializers.py` (RecipeSerializer and friends)
  - `app/user/serializers.py`   (UserSerializer)

The relational store is modelled as explicit lists of rows; Django ORM
operations (`filter`, `distinct`, `order_by`, `get_or_create`, M2M
`add`/`clear`) are translated to list operations.  SQL joins introduced by
`filter(tags__id__in=...)` and `filter(recipe__isnull=False)` are modelled
with row multiplicity (one row per matching join pair), so that
`.distinct()` (here `List.dedup`) is doing real work.  The data model
(Recipe, Tag, Ingredient, User rows) follows the spec's data-model
section, as `core/models.py` is not part of the sources.
-/

/-! ## Python primitives used by the views -/

/-- Value of a decimal digit character, `none` for non-digits. -/
def digitVal (c : Char) : Option Nat :=
  if '0' ≤ c ∧ c ≤ '9' then some (c.toNat - '0'.toNat) else none

/-- Accumulate a non-empty all-digit character list into a number. -/
def digitsValAux (acc : Nat) : List Char → Option Nat
  | [] => some acc
  | c :: rest =>
      match digitVal c with
      | some d => digitsValAux (acc * 10 + d) rest
      | none => none

/-- Numeric value of a non-empty digit string, `none` otherwise. -/
def digitsVal : List Char → Option Nat
  | [] => none
  | l => digitsValAux 0 l

/-- Model of Python `int(str)`: optional surrounding spaces, optional sign,
then a non-empty run of decimal digits; raises `ValueError` (here `none`)
on anything else. -/
def pyIntChars (s : List Char) : Option Int :=
  let t := ((s.dropWhile (· = ' ')).reverse.dropWhile (· = ' ')).reverse
  match t with
  | '-' :: rest => (digitsVal rest).map (fun n => -(n : Int))
  | '+' :: rest => (digitsVal rest).map (fun n => (n : Int))
  | _ => (digitsVal t).map (fun n => (n : Int))

/-- Python `int(s)` on a `String`. -/
def pyInt (s : String) : Option Int := pyIntChars s.data

/-- Helper for Python `str.split(sep)`. -/
def splitAux (sep : Char) : List Char → List Char → List (List Char)
  | [], acc => [acc.reverse]
  | c :: rest, acc =>
      if c = sep then acc.reverse :: splitAux sep rest []
      else splitAux sep rest (c :: acc)

/-- Python `str.split(sep)` for a one-character separator (on `""` it
returns `[""]`, like Python). -/
def splitOnChar (sep : Char) (s : List Char) : List (List Char) :=
  splitAux sep s []

/-- `RecipeViewSet._params_to_ints`:
`[int(str_id) for str_id in params.split(',')]`.  `none` models the
`ValueError` raised by `int` on a non-numeric token. -/
def paramsToInts (s : String) : Option (List Int) :=
  (splitOnChar ',' s.data).mapM pyIntChars

/-- Python truthiness of `query_params.get(...)`: `None` and the empty
string are falsy, every other string is truthy. -/
def truthy : Option String → Bool
  | none => false
  | some s => !(s == "")

/-- Strict lexicographic order on character lists (by code point), used to
model the store's `ORDER BY name`. -/
def lexLt : List Char → List Char → Bool
  | [], [] => false
  | [], _ :: _ => true
  | _ :: _, [] => false
  | a :: as, b :: bs =>
      if a.toNat < b.toNat then true
      else if b.toNat < a.toNat then false
      else lexLt as bs

/-- Non-strict lexicographic order on strings (total: the negation of the
reversed strict order). -/
def nameLe (a b : String) : Bool := !(lexLt b.data a.data)

/-! ## Data model (rows of the relational store) -/

/-- A `Tag` row: owned by one user, has a name (spec data model;
`core/models.py` is not among the sources). -/
structure Tag where
  id : Int
  user : Int
  name : String
deriving DecidableEq

/-- An `Ingredient` row: owned by one user, has a name. -/
structure Ingredient where
  id : Int
  user : Int
  name : String
deriving DecidableEq

/-- A `Recipe` row, with its many-to-many tag/ingredient id sets. -/
structure Recipe where
  id : Int
  user : Int
  title : String
  description : String
  time_minutes : Int
  price : String
  link : String
  image : Option String
  tags : List Int
  ingredients : List Int
deriving DecidableEq

/-- A `User` row (email is the identity key per the spec). -/
structure User where
  email : String
  name : String
  password : String
deriving DecidableEq

/-- The persistent store: row lists plus fresh-id counters standing in for
the autoincrement primary keys. -/
structure Db where
  users : List User
  tags : List Tag
  ingredients : List Ingredient
  recipes : List Recipe
  nextTagId : Int
  nextIngredientId : Int
  nextRecipeId : Int
deriving DecidableEq

/-- HTTP-level outcome of a request handler. -/
inductive Response (α : Type) where
  | ok (body : α)
  | badRequest
  | notFound
  | forbidden
  | methodNotAllowed
  | serverError
deriving DecidableEq

/-- Whether an outcome is a 4xx client error. -/
def Response.isClientError {α : Type} : Response α → Bool
  | .badRequest => true
  | .notFound => true
  | .forbidden => true
  | .methodNotAllowed => true
  | _ => false

/-- Look a recipe row up by primary key. -/
def Db.findRecipe (db : Db) (rid : Int) : Option Recipe :=
  db.recipes.find? (fun r => r.id == rid)

/-- Apply `g` to every recipe row with primary key `rid` (the ORM mutates
the single row with that id; ids are unique in well-formed stores). -/
def Db.mapRecipe (db : Db) (rid : Int) (g : Recipe → Recipe) : Db :=
  { db with recipes := db.recipes.map (fun r => if r.id == rid then g r else r) }

/-! ## Attribute reconciliation (`RecipeSerializer`) -/

/-- `recipe.tags.add(tag)`: M2M add, idempotent (the through table has a
unique constraint, re-adding an existing pair is a no-op). -/
def addTagToRecipe (db : Db) (rid : Int) (tid : Int) : Db :=
  db.mapRecipe rid (fun r =>
    { r with tags := if r.tags.contains tid then r.tags else r.tags ++ [tid] })

/-- `recipe.ingredients.add(ingredient)`: idempotent M2M add. -/
def addIngredientToRecipe (db : Db) (rid : Int) (iid : Int) : Db :=
  db.mapRecipe rid (fun r =>
    { r with ingredients :=
        if r.ingredients.contains iid then r.ingredients else r.ingredients ++ [iid] })

/-- Loop body of `RecipeSerializer._get_or_create_tags`:
`Tag.objects.get_or_create(user=auth_user, name=n)` followed by
`recipe.tags.add(tag)`.  A created row gets the next fresh primary key and
is appended to the table. -/
def getOrCreateTagStep (u rid : Int) (db : Db) (n : String) : Db :=
  match db.tags.find? (fun t => t.user == u && t.name == n) with
  | some t => addTagToRecipe db rid t.id
  | none =>
      let t : Tag := { id := db.nextTagId, user := u, name := n }
      addTagToRecipe
        { db with tags := db.tags ++ [t], nextTagId := db.nextTagId + 1 } rid t.id

/-- `RecipeSerializer._get_or_create_tags`: iterate the validated tag
payload (each item is `{name}`; `id` is read-only on `TagSerializer`). -/
def getOrCreateTags (u rid : Int) (names : List String) (db : Db) : Db :=
  names.foldl (getOrCreateTagStep u rid) db

/-- Loop body of `RecipeSerializer._get_or_create_ingredients`. -/
def getOrCreateIngredientStep (u rid : Int) (db : Db) (n : String) : Db :=
  match db.ingredients.find? (fun i => i.user == u && i.name == n) with
  | some i => addIngredientToRecipe db rid i.id
  | none =>
      let i : Ingredient := { id := db.nextIngredientId, user := u, name := n }
      addIngredientToRecipe
        { db with ingredients := db.ingredients ++ [i],
                  nextIngredientId := db.nextIngredientId + 1 } rid i.id

/-- `RecipeSerializer._get_or_create_ingredients`. -/
def getOrCreateIngredients (u rid : Int) (names : List String) (db : Db) : Db :=
  names.foldl (getOrCreateIngredientStep u rid) db

/-- `instance.tags.clear()`. -/
def clearTags (db : Db) (rid : Int) : Db :=
  db.mapRecipe rid (fun r => { r with tags := [] })

/-- `instance.ingredients.clear()`. -/
def clearIngredients (db : Db) (rid : Int) : Db :=
  db.mapRecipe rid (fun r => { r with ingredients := [] })

/-- Validated data of a (possibly partial) recipe update; `none` means the
field was absent from the request (`validated_data.pop(..., None)`). -/
structure RecipeUpdatePayload where
  title : Option String
  description : Option String
  time_minutes : Option Int
  price : Option String
  link : Option String
  tags : Option (List String)
  ingredients : Option (List String)
deriving DecidableEq

/-- The `setattr` loop of `RecipeSerializer.update` over the remaining
scalar fields, followed by `instance.save()`. -/
def applyScalars (p : RecipeUpdatePayload) (r : Recipe) : Recipe :=
  { r with
      title := p.title.getD r.title
      description := p.description.getD r.description
      time_minutes := p.time_minutes.getD r.time_minutes
      price := p.price.getD r.price
      link := p.link.getD r.link }

/-- `RecipeSerializer.update`: pop `tags`/`ingredients` (default `None`);
when a list is present (even empty) clear the association then reconcile;
when absent leave it untouched; then assign the scalar fields and save. -/
def updateRecipeInstance (db : Db) (u rid : Int) (p : RecipeUpdatePayload) : Db :=
  let db1 :=
    match p.tags with
    | none => db
    | some names => getOrCreateTags u rid names (clearTags db rid)
  let db2 :=
    match p.ingredients with
    | none => db1
    | some names => getOrCreateIngredients u rid names (clearIngredients db1 rid)
  db2.mapRecipe rid (applyScalars p)

/-- Validated data of a recipe create; `tags`/`ingredients` default to `[]`
when absent (`validated_data.pop('tags', [])`). -/
structure RecipeCreatePayload where
  title : String
  description : String
  time_minutes : Int
  price : String
  link : String
  tags : Option (List String)
  ingredients : Option (List String)
deriving DecidableEq

/-- `RecipeViewSet.perform_create` + `RecipeSerializer.create`: the new row
is owned by the authenticated user (`serializer.save(user=request.user)`),
created first, then the payload lists are reconciled onto it. -/
def createRecipe (db : Db) (u : Int) (p : RecipeCreatePayload) : Db :=
  let r : Recipe :=
    { id := db.nextRecipeId, user := u, title := p.title,
      description := p.description, time_minutes := p.time_minutes,
      price := p.price, link := p.link, image := none,
      tags := [], ingredients := [] }
  let db1 := { db with recipes := db.recipes ++ [r],
                       nextRecipeId := db.nextRecipeId + 1 }
  let db2 := getOrCreateTags u r.id (p.tags.getD []) db1
  getOrCreateIngredients u r.id (p.ingredients.getD []) db2

/-! ## Querysets (`views.py`) -/

/-- One SQL join step: `queryset.filter(tags__id__in=ids)` (resp.
`ingredients__id__in`).  The join yields one row per (recipe, matching
linked id) pair, so a recipe matching several requested ids appears with
that multiplicity until `.distinct()`. -/
def applyIdFilter (proj : Recipe → List Int) (ids : List Int) (rows : List Recipe) :
    List Recipe :=
  rows.flatMap (fun r => ((proj r).filter (fun x => ids.contains x)).map (fun _ => r))

/-- `RecipeViewSet.get_queryset`: optional `tags`/`ingredients`
comma-separated id filters (only applied when the parameter is truthy),
then `filter(user=request.user).distinct().order_by('-id')`.  A
non-numeric token makes `int` raise `ValueError`, which no code in the
view catches: the request ends as a server error. -/
def recipeQueryset (db : Db) (u : Int) (tagsParam ingredientsParam : Option String) :
    Response (List Recipe) :=
  let step (param : Option String) (proj : Recipe → List Int)
      (rows : List Recipe) : Option (List Recipe) :=
    if truthy param then
      match paramsToInts (param.getD "") with
      | none => none
      | some ids => some (applyIdFilter proj ids rows)
    else some rows
  match step tagsParam Recipe.tags db.recipes with
  | none => .serverError
  | some rows1 =>
      match step ingredientsParam Recipe.ingredients rows1 with
      | none => .serverError
      | some rows2 =>
          .ok (List.insertionSort (fun a b => b.id ≤ a.id)
                ((rows2.filter (fun r => r.user == u)).dedup))

/-- The `list` action of `RecipeViewSet`. -/
def recipeList (db : Db) (u : Int) (tagsParam ingredientsParam : Option String) :
    Response (List Recipe) :=
  recipeQueryset db u tagsParam ingredientsParam

/-- `BaseRecipeAttributesViewSet.get_queryset`, shared by the tag and
ingredient viewsets: `assigned_only = bool(int(params.get('assigned_only', 0)))`;
when set, `filter(recipe__isnull=False)` joins each attribute row once per
recipe referencing it; then `filter(user=...).distinct().order_by('name')`. -/
def baseAttrQueryset {α : Type} [DecidableEq α] (queryset : List α)
    (userOf : α → Int) (nameOf : α → String) (linkedRecipes : α → List Recipe)
    (u : Int) (assignedOnlyParam : Option String) : Response (List α) :=
  match (match assignedOnlyParam with | none => some (0 : Int) | some s => pyInt s) with
  | none => .serverError
  | some n =>
      let rows := if n ≠ 0
        then queryset.flatMap (fun a => (linkedRecipes a).map (fun _ => a))
        else queryset
      .ok (List.insertionSort (fun a b => nameLe (nameOf a) (nameOf b) = true)
            ((rows.filter (fun a => userOf a == u)).dedup))

/-- `TagViewSet` queryset (`queryset = Tag.objects.all()`). -/
def tagQueryset (db : Db) (u : Int) (assignedOnlyParam : Option String) :
    Response (List Tag) :=
  baseAttrQueryset db.tags Tag.user Tag.name
    (fun t => db.recipes.filter (fun r => r.tags.contains t.id)) u assignedOnlyParam

/-- `IngredientViewSet` queryset. -/
def ingredientQueryset (db : Db) (u : Int) (assignedOnlyParam : Option String) :
    Response (List Ingredient) :=
  baseAttrQueryset db.ingredients Ingredient.user Ingredient.name
    (fun i => db.recipes.filter (fun r => r.ingredients.contains i.id)) u assignedOnlyParam

/-- The `list` action of `TagViewSet`. -/
def tagList (db : Db) (u : Int) (assignedOnlyParam : Option String) :
    Response (List Tag) :=
  tagQueryset db u assignedOnlyParam

/-- The `list` action of `IngredientViewSet`. -/
def ingredientList (db : Db) (u : Int) (assignedOnlyParam : Option String) :
    Response (List Ingredient) :=
  ingredientQueryset db u assignedOnlyParam

/-! ## Detail actions -/

/-- DRF `get_object` for recipes: look the pk up inside `get_queryset()`
(a detail request carries no filter query parameters), 404 when absent. -/
def getObjectRecipe (db : Db) (u : Int) (pk : Int) : Option Recipe :=
  match recipeQueryset db u none none with
  | .ok qs => qs.find? (fun r => r.id == pk)
  | _ => none

/-- `retrieve` on `RecipeViewSet` (read one recipe). -/
def retrieveRecipe (db : Db) (u : Int) (pk : Int) : Response Recipe :=
  match getObjectRecipe db u pk with
  | some r => .ok r
  | none => .notFound

/-- `update`/`partial_update` on `RecipeViewSet`: 404 outside the
owner-scoped queryset, otherwise run `RecipeSerializer.update`. -/
def updateRecipeEndpoint (db : Db) (u : Int) (pk : Int) (p : RecipeUpdatePayload) :
    Response Db :=
  match getObjectRecipe db u pk with
  | some r => .ok (updateRecipeInstance db u r.id p)
  | none => .notFound

/-- `destroy` on `RecipeViewSet`: 404 outside the owner-scoped queryset,
otherwise delete the row. -/
def destroyRecipe (db : Db) (u : Int) (pk : Int) : Response Db :=
  match getObjectRecipe db u pk with
  | some r => .ok { db with recipes := db.recipes.filter (fun x => !(x.id == r.id)) }
  | none => .notFound

/-- DRF `get_object` for tags (detail requests carry no
`assigned_only parameter`, so the queryset is the user-scoped tag list). -/
def getObjectTag (db : Db) (u : Int) (pk : Int) : Option Tag :=
  match tagQueryset db u none with
  | .ok qs => qs.find? (fun t => t.id == pk)
  | _ => none

/-- `update`/`partial_update` on `TagViewSet` (payload: the tag's name). -/
def updateTag (db : Db) (u : Int) (pk : Int) (newName : String) : Response Db :=
  match getObjectTag db u pk with
  | some t =>
      .ok { db with tags := db.tags.map (fun x =>
              if x.id == t.id then { x with name := newName } else x) }
  | none => .notFound

/-- `destroy` on `TagViewSet`. -/
def destroyTag (db : Db) (u : Int) (pk : Int) : Response Db :=
  match getObjectTag db u pk with
  | some t => .ok { db with tags := db.tags.filter (fun x => !(x.id == t.id)) }
  | none => .notFound

/-- A detail GET on `TagViewSet`: the viewset mixes in only
`DestroyModelMixin`, `UpdateModelMixin` and `ListModelMixin`, so the
router maps no handler for GET on the detail route and dispatch answers
405 Method Not Allowed — for every requester, owner or not. -/
def retrieveTag (_db : Db) (_u : Int) (_pk : Int) : Response Tag :=
  .methodNotAllowed

/-- DRF `get_object` for ingredients. -/
def getObjectIngredient (db : Db) (u : Int) (pk : Int) : Option Ingredient :=
  match ingredientQueryset db u none with
  | .ok qs => qs.find? (fun i => i.id == pk)
  | _ => none

/-- `update`/`partial_update` on `IngredientViewSet`. -/
def updateIngredient (db : Db) (u : Int) (pk : Int) (newName : String) : Response Db :=
  match getObjectIngredient db u pk with
  | some i =>
      .ok { db with ingredients := db.ingredients.map (fun x =>
              if x.id == i.id then { x with name := newName } else x) }
  | none => .notFound

/-- `destroy` on `IngredientViewSet`. -/
def destroyIngredient (db : Db) (u : Int) (pk : Int) : Response Db :=
  match getObjectIngredient db u pk with
  | some i => .ok { db with ingredients := db.ingredients.filter (fun x => !(x.id == i.id)) }
  | none => .notFound

/-- A detail GET on `IngredientViewSet`: no retrieve handler, 405. -/
def retrieveIngredient (_db : Db) (_u : Int) (_pk : Int) : Response Ingredient :=
  .methodNotAllowed

/-! ## Image upload (`RecipeViewSet.upload_image`) -/

/-- An uploaded file; `valid` records the verdict of the framework's image
field validation (the actual decode is external to this repository). -/
structure ImageUpload where
  file : String
  valid : Bool
deriving DecidableEq

/-- `upload_image`: `get_object` (owner-scoped, 404 otherwise), then
`RecipeImageSerializer` with the request data — the `image` field is
required and must validate; on success `serializer.save()` stores the new
image reference on the recipe, else 400. -/
def uploadImage (db : Db) (u : Int) (pk : Int) (upload : Option ImageUpload) :
    Response Db :=
  match getObjectRecipe db u pk with
  | none => .notFound
  | some r =>
      match upload with
      | none => .badRequest
      | some up =>
          if up.valid then
            .ok (db.mapRecipe r.id (fun x => { x with image := some up.file }))
          else .badRequest

/-! ## User registration (`UserSerializer`) -/

/-- Registration request body. -/
structure UserCreatePayload where
  email : String
  password : String
  name : String
deriving DecidableEq

/-- Serialized representation of a user: the serializer's fields are
`['email', 'password', 'name']` with `password` write-only, so the
response body carries only `email` and `name`. -/
def userToRepresentation (u : User) : List (String × String) :=
  [("email", u.email), ("name", u.name)]

/-- `POST /user/create` (`UserSerializer` + `create_user`): 400 when the
password has fewer than 5 characters (`min_length: 5`) or the email
duplicates an existing user.
Modelled from the spec: the unique-email constraint lives on the custom
user model in `core/models.py`, which is not among the sources; the spec's
data model declares email the unique identity key. -/
def createUserEndpoint (db : Db) (p : UserCreatePayload) :
    Response (List (String × String)) × Db :=
  if p.password.length < 5 then (.badRequest, db)
  else if db.users.any (fun u => u.email == p.email) then (.badRequest, db)
  else
    let u : User := { email := p.email, name := p.name, password := p.password }
    (.ok (userToRepresentation u), { db with users := db.users ++ [u] })

/-! ## Auxiliary definitions for the statements -/

/-- Remove later duplicates from a list, keeping first occurrences. -/
def dedupFirst : List String → List String
  | [] => []
  | n :: rest => n :: dedupFirst (rest.filter (fun m => !(m == n)))
termination_by l => l.length
decreasing_by
  simp only [List.length_cons]
  exact Nat.lt_succ_of_le (List.length_filter_le _ _)

/-- Forget a recipe row's image reference (used to state that an operation
changes nothing but the image). -/
def Recipe.eraseImage (r : Recipe) : Recipe := { r with image := none }

/-- Well-formedness of the store: primary keys are unique and below the
autoincrement counters, and — the invariant of interest — every tag and
ingredient associated with a recipe is a row owned by the same user as the
recipe. -/
structure Db.Wf (db : Db) : Prop where
  tagIdsNodup : (db.tags.map Tag.id).Nodup
  ingredientIdsNodup : (db.ingredients.map Ingredient.id).Nodup
  recipeIdsNodup : (db.recipes.map Recipe.id).Nodup
  tagIdsFresh : ∀ t ∈ db.tags, t.id < db.nextTagId
  ingredientIdsFresh : ∀ i ∈ db.ingredients, i.id < db.nextIngredientId
  recipeIdsFresh : ∀ r ∈ db.recipes, r.id < db.nextRecipeId
  recipeTagsOwned : ∀ r ∈ db.recipes, ∀ tid ∈ r.tags,
    ∃ t ∈ db.tags, t.id = tid ∧ t.user = r.user
  recipeIngredientsOwned : ∀ r ∈ db.recipes, ∀ iid ∈ r.ingredients,
    ∃ i ∈ db.ingredients, i.id = iid ∧ i.user = r.user

/-! ## Concrete fixtures (used by witnesses and counterexamples) -/

/-- The empty store. -/
def dbEmpty : Db := ⟨[], [], [], [], 1, 1, 1⟩

/-- A two-user store: user 1 owns tag 1, ingredient 1 and recipe 1
(carrying both); user 2 owns nothing. -/
def dbTwoUsers : Db :=
  ⟨[], [⟨1, 1, "Vegan"⟩], [⟨1, 1, "Salt"⟩],
   [⟨1, 1, "Stew", "Slow", 90, "7.50", "", none, [1], [1]⟩], 2, 2, 2⟩

/-- A create payload used by witnesses. -/
def payloadThaiCurry : RecipeCreatePayload :=
  ⟨"Thai curry", "", 22, "5.21", "", some ["Thai", "Dinner"], some ["Rice"]⟩

/-- An update payload touching the title and clearing the tag list. -/
def payloadClearTags : RecipeUpdatePayload :=
  ⟨some "Renamed", none, none, none, none, some [], none⟩

/-- An update payload providing no fields at all (an empty PATCH). -/
def payloadNoFields : RecipeUpdatePayload :=
  ⟨none, none, none, none, none, none, none⟩

/-- The store obtained by applying `payloadClearTags` to recipe 1 of
`dbTwoUsers` as user 1. -/
def dbTwoUsersUpdated : Db := updateRecipeInstance dbTwoUsers 1 1 payloadClearTags

/-- The store obtained from `dbTwoUsers` by a successful image upload on
recipe 1. -/
def dbUploaded : Db :=
  Db.mapRecipe dbTwoUsers 1 (fun x => { x with image := some "img.jpg" })

/-! ## Helper lemmas -/

/-- `find?` commutes with a map that does not disturb the predicate. -/
theorem find?_map_comm {α : Type} (f : α → α) (p : α → Bool)
    (hp : ∀ a, p (f a) = p a) :
    ∀ l : List α, (l.map f).find? p = (l.find? p).map f := by
  intro l
  induction l with
  | nil => rfl
  | cons a l ih =>
      simp only [List.map_cons, List.find?_cons, hp a]
      cases p a <;> simp [ih]

/-- Mapping with `f` then projecting with `pr` is just projecting, when
`f` preserves the projection. -/
theorem map_proj_comm {α β : Type} (f : α → α) (pr : α → β)
    (hp : ∀ a, pr (f a) = pr a) :
    ∀ l : List α, (l.map f).map pr = l.map pr := by
  intro l
  induction l with
  | nil => rfl
  | cons a l ih => simp [hp a, ih]

theorem findRecipe_mapRecipe (db : Db) (rid rid' : Int) (g : Recipe → Recipe)
    (hg : ∀ r, (g r).id = r.id) :
    (db.mapRecipe rid g).findRecipe rid' =
      (db.findRecipe rid').map (fun r => if r.id == rid then g r else r) := by
  unfold Db.findRecipe Db.mapRecipe
  exact find?_map_comm _ _ (fun a => by by_cases h : a.id == rid <;> simp [h, hg]) _

theorem findRecipe_mapRecipe_self (db : Db) (rid : Int) (g : Recipe → Recipe)
    (hg : ∀ r, (g r).id = r.id) :
    (db.mapRecipe rid g).findRecipe rid = (db.findRecipe rid).map g := by
  rw [findRecipe_mapRecipe db rid rid g hg]
  cases h : db.findRecipe rid with
  | none => rfl
  | some r =>
      unfold Db.findRecipe at h
      have hr := List.find?_some (p := fun x : Recipe => x.id == rid) h
      have hr2 : r.id = rid := by simpa using hr
      simp [hr2]

theorem option_map_proj {α β : Type} (f : α → α) (pr : α → β)
    (hp : ∀ a, pr (f a) = pr a) :
    ∀ o : Option α, (o.map f).map pr = o.map pr := by
  intro o; cases o <;> simp [hp]

theorem findRecipe_mapRecipe_proj {β : Type} (db : Db) (rid rid' : Int)
    (g : Recipe → Recipe) (pr : Recipe → β) (hg : ∀ r, (g r).id = r.id)
    (hp : ∀ r, pr (g r) = pr r) :
    ((db.mapRecipe rid g).findRecipe rid').map pr = (db.findRecipe rid').map pr := by
  rw [findRecipe_mapRecipe db rid rid' g hg]
  exact option_map_proj _ _
    (fun a => by by_cases h2 : (a.id == rid) = true <;> simp [h2, hp]) _

theorem findRecipe_tagStep_ingredientsField (u rid : Int) (db : Db) (n : String)
    (rid' : Int) :
    ((getOrCreateTagStep u rid db n).findRecipe rid').map Recipe.ingredients =
      (db.findRecipe rid').map Recipe.ingredients := by
  cases h : db.tags.find? (fun t => t.user == u && t.name == n) with
  | some t =>
      simp only [getOrCreateTagStep, h, addTagToRecipe]
      exact findRecipe_mapRecipe_proj _ _ _ _ _ (fun _ => rfl) (fun _ => rfl)
  | none =>
      simp only [getOrCreateTagStep, h, addTagToRecipe]
      exact findRecipe_mapRecipe_proj _ _ _ _ _ (fun _ => rfl) (fun _ => rfl)

theorem findRecipe_tagFold_ingredientsField (u rid : Int) (names : List String) :
    ∀ (db : Db) (rid' : Int),
      ((getOrCreateTags u rid names db).findRecipe rid').map Recipe.ingredients =
        (db.findRecipe rid').map Recipe.ingredients := by
  induction names with
  | nil => intro db rid'; rfl
  | cons n ns ih =>
      intro db rid'
      simp only [getOrCreateTags, List.foldl_cons]
      have step : (ns.foldl (getOrCreateTagStep u rid) (getOrCreateTagStep u rid db n)) =
          getOrCreateTags u rid ns (getOrCreateTagStep u rid db n) := rfl
      rw [step, ih, findRecipe_tagStep_ingredientsField]

theorem findRecipe_clearTags_ingredientsField (db : Db) (rid rid' : Int) :
    ((clearTags db rid).findRecipe rid').map Recipe.ingredients =
      (db.findRecipe rid').map Recipe.ingredients := by
  unfold clearTags
  exact findRecipe_mapRecipe_proj _ _ _ _ _ (fun _ => rfl) (fun _ => rfl)

theorem findRecipe_ingStep_tagsField (u rid : Int) (db : Db) (n : String)
    (rid' : Int) :
    ((getOrCreateIngredientStep u rid db n).findRecipe rid').map Recipe.tags =
      (db.findRecipe rid').map Recipe.tags := by
  cases h : db.ingredients.find? (fun i => i.user == u && i.name == n) with
  | some i =>
      simp only [getOrCreateIngredientStep, h, addIngredientToRecipe]
      exact findRecipe_mapRecipe_proj _ _ _ _ _ (fun _ => rfl) (fun _ => rfl)
  | none =>
      simp only [getOrCreateIngredientStep, h, addIngredientToRecipe]
      exact findRecipe_mapRecipe_proj _ _ _ _ _ (fun _ => rfl) (fun _ => rfl)

theorem findRecipe_ingFold_tagsField (u rid : Int) (names : List String) :
    ∀ (db : Db) (rid' : Int),
      ((getOrCreateIngredients u rid names db).findRecipe rid').map Recipe.tags =
        (db.findRecipe rid').map Recipe.tags := by
  induction names with
  | nil => intro db rid'; rfl
  | cons n ns ih =>
      intro db rid'
      simp only [getOrCreateIngredients, List.foldl_cons]
      have step : (ns.foldl (getOrCreateIngredientStep u rid)
            (getOrCreateIngredientStep u rid db n)) =
          getOrCreateIngredients u rid ns (getOrCreateIngredientStep u rid db n) := rfl
      rw [step, ih, findRecipe_ingStep_tagsField]

theorem findRecipe_clearIngredients_tagsField (db : Db) (rid rid' : Int) :
    ((clearIngredients db rid).findRecipe rid').map Recipe.tags =
      (db.findRecipe rid').map Recipe.tags := by
  unfold clearIngredients
  exact findRecipe_mapRecipe_proj _ _ _ _ _ (fun _ => rfl) (fun _ => rfl)

theorem findRecipe_scalars_tagsField (db : Db) (rid rid' : Int)
    (p : RecipeUpdatePayload) :
    ((db.mapRecipe rid (applyScalars p)).findRecipe rid').map Recipe.tags =
      (db.findRecipe rid').map Recipe.tags :=
  findRecipe_mapRecipe_proj _ _ _ _ _ (fun _ => rfl) (fun _ => rfl)

theorem findRecipe_scalars_ingredientsField (db : Db) (rid rid' : Int)
    (p : RecipeUpdatePayload) :
    ((db.mapRecipe rid (applyScalars p)).findRecipe rid').map Recipe.ingredients =
      (db.findRecipe rid').map Recipe.ingredients :=
  findRecipe_mapRecipe_proj _ _ _ _ _ (fun _ => rfl) (fun _ => rfl)

theorem tagsField_after_clearTags (db : Db) (rid : Int) (r0 : Recipe)
    (h : db.findRecipe rid = some r0) :
    ((clearTags db rid).findRecipe rid).map Recipe.tags = some [] := by
  unfold clearTags
  rw [findRecipe_mapRecipe_self db rid
        (fun r => { r with tags := ([] : List Int) }) (fun _ => rfl), h]
  rfl

theorem ingredientsField_after_clearIngredients (db : Db) (rid : Int) (r0 : Recipe)
    (h : db.findRecipe rid = some r0) :
    ((clearIngredients db rid).findRecipe rid).map Recipe.ingredients = some [] := by
  unfold clearIngredients
  rw [findRecipe_mapRecipe_self db rid
        (fun r => { r with ingredients := ([] : List Int) }) (fun _ => rfl), h]
  rfl

/-- C2: on a recipe update, a provided-but-empty `tags` list clears all of
the recipe's tag associations, while an absent `tags` field leaves them
exactly as they were; likewise for `ingredients`
(`RecipeSerializer.update` pops each field with default `None` and only
clears/reconciles when the value is not `None`). -/
theorem update_empty_list_clears_absent_field_keeps
    (db : Db) (u rid : Int) (p : RecipeUpdatePayload) (r0 : Recipe)
    (h : db.findRecipe rid = some r0) :
    (p.tags = some [] →
      ((updateRecipeInstance db u rid p).findRecipe rid).map Recipe.tags = some []) ∧
    (p.tags = none →
      ((updateRecipeInstance db u rid p).findRecipe rid).map Recipe.tags =
        some r0.tags) ∧
    (p.ingredients = some [] →
      ((updateRecipeInstance db u rid p).findRecipe rid).map Recipe.ingredients =
        some []) ∧
    (p.ingredients = none →
      ((updateRecipeInstance db u rid p).findRecipe rid).map Recipe.ingredients =
        some r0.ingredients) := by
  refine ⟨?_, ?_, ?_, ?_⟩
  · intro hpt
    simp only [updateRecipeInstance, hpt]
    rw [findRecipe_scalars_tagsField]
    cases hpi : p.ingredients with
    | none =>
        exact tagsField_after_clearTags db rid r0 h
    | some ns =>
        rw [findRecipe_ingFold_tagsField, findRecipe_clearIngredients_tagsField]
        exact tagsField_after_clearTags db rid r0 h
  · intro hpt
    simp only [updateRecipeInstance, hpt]
    rw [findRecipe_scalars_tagsField]
    cases hpi : p.ingredients with
    | none => rw [h]; rfl
    | some ns =>
        rw [findRecipe_ingFold_tagsField, findRecipe_clearIngredients_tagsField, h]
        rfl
  · intro hpi
    simp only [updateRecipeInstance, hpi]
    rw [findRecipe_scalars_ingredientsField]
    cases hpt : p.tags with
    | none =>
        exact ingredientsField_after_clearIngredients db rid r0 h
    | some ns =>
        have hpres : ((getOrCreateTags u rid ns (clearTags db rid)).findRecipe rid).map
            Recipe.ingredients = some r0.ingredients := by
          rw [findRecipe_tagFold_ingredientsField, findRecipe_clearTags_ingredientsField, h]
          rfl
        obtain ⟨r1, hr1, -⟩ := Option.map_eq_some'.mp hpres
        exact ingredientsField_after_clearIngredients _ rid r1 hr1
  · intro hpi
    simp only [updateRecipeInstance, hpi]
    rw [findRecipe_scalars_ingredientsField]
    cases hpt : p.tags with
    | none => rw [h]; rfl
    | some ns =>
        rw [findRecipe_tagFold_ingredientsField, findRecipe_clearTags_ingredientsField, h]
        rfl

/-- Witness for C2 at a concrete store: clearing via an explicit empty
list, and preservation under an empty PATCH. -/
theorem update_empty_list_clears_absent_field_keeps_witness :
    ((updateRecipeInstance dbTwoUsers 1 1 payloadClearTags).findRecipe 1).map
        Recipe.tags = some [] ∧
    ((updateRecipeInstance dbTwoUsers 1 1 payloadNoFields).findRecipe 1).map
        Recipe.tags = some [1] :=
  ⟨(update_empty_list_clears_absent_field_keeps dbTwoUsers 1 1 payloadClearTags
      ⟨1, 1, "Stew", "Slow", 90, "7.50", "", none, [1], [1]⟩ (by decide)).1 rfl,
   (update_empty_list_clears_absent_field_keeps dbTwoUsers 1 1 payloadNoFields
      ⟨1, 1, "Stew", "Slow", 90, "7.50", "", none, [1], [1]⟩ (by decide)).2.1 rfl⟩

theorem mem_tags_after_add (db : Db) (rid tid : Int) :
    ∀ r ∈ (addTagToRecipe db rid tid).recipes, r.id = rid → tid ∈ r.tags := by
  intro r hr hid
  unfold addTagToRecipe Db.mapRecipe at hr
  simp only [List.mem_map] at hr
  obtain ⟨r1, hr1, hfr⟩ := hr
  subst hfr
  by_cases h1 : (r1.id == rid) = true
  · simp only [h1, if_true]
    by_cases hc : (r1.tags.contains tid) = true
    · have hm : tid ∈ r1.tags := by simpa using hc
      simp [hm]
    · have hm : tid ∉ r1.tags := by simpa using hc
      simp [hm]
  · simp only [h1, if_false] at hid ⊢
    exact absurd (by simpa using hid) (by simpa using h1)

/-- C3: during recipe create/update reconciliation of one tag payload item
with name `N` (`Tag.objects.get_or_create(user=auth_user, name=N)` then
`recipe.tags.add(tag)`): when a `(user, N)` tag row already exists it is
reused — the tag table is unchanged and an existing matching row is
associated with the recipe; when none exists exactly one new row is
created (with the fresh primary key) and associated. -/
theorem tag_payload_reuses_or_creates_row (db : Db) (u rid : Int) (N : String) :
    ((∃ t ∈ db.tags, t.user = u ∧ t.name = N) →
      (getOrCreateTagStep u rid db N).tags = db.tags ∧
      ∃ t ∈ db.tags, t.user = u ∧ t.name = N ∧
        ∀ r ∈ (getOrCreateTagStep u rid db N).recipes, r.id = rid → t.id ∈ r.tags) ∧
    ((¬ ∃ t ∈ db.tags, t.user = u ∧ t.name = N) →
      (getOrCreateTagStep u rid db N).tags = db.tags ++ [⟨db.nextTagId, u, N⟩] ∧
      ∀ r ∈ (getOrCreateTagStep u rid db N).recipes, r.id = rid →
        db.nextTagId ∈ r.tags) := by
  cases h : db.tags.find? (fun t => t.user == u && t.name == N) with
  | some t =>
      have hmem : t ∈ db.tags := List.mem_of_find?_eq_some h
      have hprop := List.find?_some (p := fun t : Tag => t.user == u && t.name == N) h
      have hu : t.user = u := by
        have := Bool.and_elim_left hprop
        simpa using this
      have hn : t.name = N := by
        have := Bool.and_elim_right hprop
        simpa using this
      constructor
      · intro _
        constructor
        · simp only [getOrCreateTagStep, h]
          rfl
        · refine ⟨t, hmem, hu, hn, ?_⟩
          simp only [getOrCreateTagStep, h]
          exact mem_tags_after_add db rid t.id
      · intro hne
        exact absurd ⟨t, hmem, hu, hn⟩ hne
  | none =>
      constructor
      · intro hex
        obtain ⟨t, hmem, hu, hn⟩ := hex
        have := List.find?_eq_none.mp h t hmem
        simp [hu, hn] at this
      · intro _
        constructor
        · simp only [getOrCreateTagStep, h]
          rfl
        · simp only [getOrCreateTagStep, h]
          exact mem_tags_after_add _ rid db.nextTagId

/-- Witness for C3: both branches at concrete stores — reusing the
existing "Vegan" tag of `dbTwoUsers`, and creating a fresh "Thai" tag. -/
theorem tag_payload_reuses_or_creates_row_witness :
    ((getOrCreateTagStep 1 1 dbTwoUsers "Vegan").tags = dbTwoUsers.tags ∧
      ∃ t ∈ dbTwoUsers.tags, t.user = 1 ∧ t.name = "Vegan" ∧
        ∀ r ∈ (getOrCreateTagStep 1 1 dbTwoUsers "Vegan").recipes,
          r.id = 1 → t.id ∈ r.tags) ∧
    ((getOrCreateTagStep 1 1 dbTwoUsers "Thai").tags =
        dbTwoUsers.tags ++ [⟨dbTwoUsers.nextTagId, 1, "Thai"⟩] ∧
      ∀ r ∈ (getOrCreateTagStep 1 1 dbTwoUsers "Thai").recipes,
        r.id = 1 → dbTwoUsers.nextTagId ∈ r.tags) :=
  ⟨(tag_payload_reuses_or_creates_row dbTwoUsers 1 1 "Vegan").1 (by decide),
   (tag_payload_reuses_or_creates_row dbTwoUsers 1 1 "Thai").2 (by decide)⟩

/-- C9: user registration rejects a password shorter than 5 characters or
a duplicate email with a 400 validation error and creates no user row;
otherwise it creates the user, and the serialized response carries the
email and the name but never the password (`password` is write-only on
`UserSerializer`). -/
theorem user_create_validates_and_hides_password (db : Db) (p : UserCreatePayload) :
    ((p.password.length < 5 ∨ ∃ u0 ∈ db.users, u0.email = p.email) →
      (createUserEndpoint db p).1 = .badRequest ∧ (createUserEndpoint db p).2 = db) ∧
    (¬ p.password.length < 5 → (¬ ∃ u0 ∈ db.users, u0.email = p.email) →
      (createUserEndpoint db p).2.users = db.users ++ [⟨p.email, p.name, p.password⟩] ∧
      ∃ resp, (createUserEndpoint db p).1 = .ok resp ∧
        ("email", p.email) ∈ resp ∧ ("name", p.name) ∈ resp ∧
        ∀ v, ("password", v) ∉ resp) := by
  constructor
  · rintro (hlen | hdup)
    · simp [createUserEndpoint, hlen]
    · have hany : (db.users.any (fun u0 => u0.email == p.email)) = true := by
        simp only [List.any_eq_true]
        obtain ⟨u0, hu0, he⟩ := hdup
        exact ⟨u0, hu0, by simpa using he⟩
      by_cases hlen : p.password.length < 5
      · simp [createUserEndpoint, hlen]
      · simp [createUserEndpoint, hlen, hany]
  · intro hlen hdup
    have hany : (db.users.any (fun u0 => u0.email == p.email)) = false := by
      rw [← Bool.not_eq_true, List.any_eq_true]
      intro hex
      obtain ⟨u0, hu0, he⟩ := hex
      exact hdup ⟨u0, hu0, by simpa using he⟩
    refine ⟨?_, [("email", p.email), ("name", p.name)], ?_, ?_, ?_, ?_⟩
    · simp [createUserEndpoint, hlen, hany, userToRepresentation]
    · simp [createUserEndpoint, hlen, hany, userToRepresentation]
    · simp
    · simp
    · intro v hv
      simp only [List.mem_cons, List.not_mem_nil, or_false] at hv
      rcases hv with h | h <;>
        · have := congrArg Prod.fst h
          simp at this

/-- Witness for C9: a successful registration on the empty store, a
too-short password, and a duplicate email. -/
theorem user_create_validates_and_hides_password_witness :
    ((createUserEndpoint dbEmpty ⟨"test@eveil.com", "test1234", "Test name"⟩).2.users =
        dbEmpty.users ++ [⟨"test@eveil.com", "Test name", "test1234"⟩] ∧
      ∃ resp, (createUserEndpoint dbEmpty
          ⟨"test@eveil.com", "test1234", "Test name"⟩).1 = .ok resp ∧
        ("email", "test@eveil.com") ∈ resp ∧ ("name", "Test name") ∈ resp ∧
        ∀ v, ("password", v) ∉ resp) ∧
    ((createUserEndpoint dbEmpty ⟨"x@y.z", "ab", "X"⟩).1 = .badRequest ∧
      (createUserEndpoint dbEmpty ⟨"x@y.z", "ab", "X"⟩).2 = dbEmpty) := by
  constructor
  · exact (user_create_validates_and_hides_password dbEmpty
      ⟨"test@eveil.com", "test1234", "Test name"⟩).2 (by decide) (by decide)
  · exact (user_create_validates_and_hides_password dbEmpty
      ⟨"x@y.z", "ab", "X"⟩).1 (Or.inl (by decide))

/-- C10: a successful image upload changes nothing but the image field —
the user/tag/ingredient tables, the id counters, and every recipe row up
to its image reference are identical before and after
(`RecipeImageSerializer` exposes only the read-only `id` and `image`). -/
theorem upload_image_only_changes_image (db : Db) (u pk : Int)
    (upload : Option ImageUpload) (db' : Db)
    (h : uploadImage db u pk upload = .ok db') :
    db'.users = db.users ∧ db'.tags = db.tags ∧ db'.ingredients = db.ingredients ∧
    db'.nextTagId = db.nextTagId ∧ db'.nextIngredientId = db.nextIngredientId ∧
    db'.nextRecipeId = db.nextRecipeId ∧
    db'.recipes.map Recipe.eraseImage = db.recipes.map Recipe.eraseImage := by
  unfold uploadImage at h
  cases hobj : getObjectRecipe db u pk with
  | none => rw [hobj] at h; simp at h
  | some r =>
      rw [hobj] at h
      cases upload with
      | none => simp at h
      | some up =>
          by_cases hv : up.valid = true
          · simp only [hv, if_true] at h
            rw [Response.ok.injEq] at h
            subst h
            refine ⟨rfl, rfl, rfl, rfl, rfl, rfl, ?_⟩
            exact map_proj_comm _ _
              (fun a => by
                by_cases h2 : (a.id == r.id) = true <;>
                  simp [h2, Recipe.eraseImage]) _
          · simp [hv] at h

/-- Witness for C10: a successful upload on `dbTwoUsers`. -/
theorem upload_image_only_changes_image_witness :
    dbUploaded.users = dbTwoUsers.users ∧ dbUploaded.tags = dbTwoUsers.tags ∧
    dbUploaded.ingredients = dbTwoUsers.ingredients ∧
    dbUploaded.nextTagId = dbTwoUsers.nextTagId ∧
    dbUploaded.nextIngredientId = dbTwoUsers.nextIngredientId ∧
    dbUploaded.nextRecipeId = dbTwoUsers.nextRecipeId ∧
    dbUploaded.recipes.map Recipe.eraseImage =
      dbTwoUsers.recipes.map Recipe.eraseImage :=
  upload_image_only_changes_image dbTwoUsers 1 1 (some ⟨"img.jpg", true⟩)
    dbUploaded (by decide)

/-- Counterexample to C8 as stated: listing recipes with `tags=abc` does
not produce a 4xx client error — the uncaught `ValueError` from `int`
surfaces as a server error (`_params_to_ints` has no error handling and
DRF translates no `ValueError`). -/
theorem recipe_filter_non_numeric_counterexample :
    recipeList dbTwoUsers 1 (some "abc") none = .serverError ∧
    (recipeList dbTwoUsers 1 (some "abc") none).isClientError = false := by
  decide

/-- C8 (amended): a recipe-listing request whose `tags` or `ingredients`
query parameter contains a non-numeric token raises an unhandled
`ValueError` while parsing, ending the request as a server error, not a
client validation error. -/
theorem recipe_filter_non_numeric_is_server_error (db : Db) (u : Int)
    (s s' : String) (ti : Option String) :
    (paramsToInts s = none → s ≠ "" →
      recipeList db u (some s) ti = .serverError) ∧
    (paramsToInts s' = none → s' ≠ "" →
      recipeList db u none (some s') = .serverError) := by
  constructor
  · intro hs hne
    have ht : truthy (some s) = true := by simp [truthy, hne]
    simp [recipeList, recipeQueryset, ht, hs]
  · intro hs hne
    have ht : truthy (some s') = true := by simp [truthy, hne]
    simp [recipeList, recipeQueryset, ht, hs, truthy, hne]

/-- Witness for the amended C8 at concrete non-numeric parameters. -/
theorem recipe_filter_non_numeric_is_server_error_witness :
    recipeList dbEmpty 3 (some "abc") none = .serverError ∧
    recipeList dbEmpty 3 none (some "2x") = .serverError :=
  ⟨(recipe_filter_non_numeric_is_server_error dbEmpty 3 "abc" "2x" none).1
      (by decide) (by decide),
   (recipe_filter_non_numeric_is_server_error dbEmpty 3 "abc" "2x" none).2
      (by decide) (by decide)⟩

theorem mem_sort_dedup_filter {α : Type} [DecidableEq α] (r : α → α → Prop)
    [DecidableRel r] (p : α → Bool) (l : List α) (a : α) :
    a ∈ List.insertionSort r ((l.filter p).dedup) ↔ a ∈ l ∧ p a = true := by
  rw [(List.perm_insertionSort r _).mem_iff, List.mem_dedup, List.mem_filter]

theorem getObjectRecipe_other_user_none (db : Db) (u2 : Int) (r0 : Recipe)
    (hr : r0 ∈ db.recipes) (hneq : r0.user ≠ u2)
    (huniq : ∀ r' ∈ db.recipes, r'.id = r0.id → r' = r0) :
    getObjectRecipe db u2 r0.id = none := by
  unfold getObjectRecipe
  have hq : recipeQueryset db u2 none none =
      .ok (List.insertionSort (fun a b => b.id ≤ a.id)
        ((db.recipes.filter (fun r => r.user == u2)).dedup)) := rfl
  rw [hq]
  rw [List.find?_eq_none]
  intro r' hmem hbeq
  obtain ⟨hin, hp⟩ := (mem_sort_dedup_filter _ _ _ _).mp hmem
  have hid : r'.id = r0.id := by simpa using hbeq
  have heq := huniq r' hin hid
  subst heq
  exact hneq (by simpa using hp)

theorem getObjectTag_other_user_none (db : Db) (u2 : Int) (t0 : Tag)
    (ht : t0 ∈ db.tags) (hneq : t0.user ≠ u2)
    (huniq : ∀ t' ∈ db.tags, t'.id = t0.id → t' = t0) :
    getObjectTag db u2 t0.id = none := by
  unfold getObjectTag
  have hq : tagQueryset db u2 none =
      .ok (List.insertionSort (fun a b => nameLe a.name b.name = true)
        ((db.tags.filter (fun t => t.user == u2)).dedup)) := rfl
  rw [hq]
  rw [List.find?_eq_none]
  intro t' hmem hbeq
  obtain ⟨hin, hp⟩ := (mem_sort_dedup_filter _ _ _ _).mp hmem
  have hid : t'.id = t0.id := by simpa using hbeq
  have heq := huniq t' hin hid
  subst heq
  exact hneq (by simpa using hp)

theorem getObjectIngredient_other_user_none (db : Db) (u2 : Int) (i0 : Ingredient)
    (hi : i0 ∈ db.ingredients) (hneq : i0.user ≠ u2)
    (huniq : ∀ i' ∈ db.ingredients, i'.id = i0.id → i' = i0) :
    getObjectIngredient db u2 i0.id = none := by
  unfold getObjectIngredient
  have hq : ingredientQueryset db u2 none =
      .ok (List.insertionSort (fun i j => nameLe i.name j.name = true)
        ((db.ingredients.filter (fun i => i.user == u2)).dedup)) := rfl
  rw [hq]
  rw [List.find?_eq_none]
  intro i' hmem hbeq
  obtain ⟨hin, hp⟩ := (mem_sort_dedup_filter _ _ _ _).mp hmem
  have hid : i'.id = i0.id := by simpa using hbeq
  have heq := huniq i' hin hid
  subst heq
  exact hneq (by simpa using hp)

/-- Counterexample to C1 as stated: tag 1 of `dbTwoUsers` is owned by
user 1, and a detail read of it by the authenticated user 2 does not
yield NotFound — `TagViewSet` (like `IngredientViewSet`) mixes in no
`RetrieveModelMixin`, so a detail GET is answered 405 Method Not Allowed
for every requester. -/
theorem ownership_masking_counterexample :
    (⟨1, 1, "Vegan"⟩ : Tag) ∈ dbTwoUsers.tags ∧ (1 : Int) ≠ 2 ∧
    retrieveTag dbTwoUsers 2 1 = .methodNotAllowed ∧
    retrieveTag dbTwoUsers 2 1 ≠ .notFound := by
  decide

/-- C1 (amended): for a recipe owned by U1 and any authenticated U2 ≠ U1,
a detail read, update or delete of the recipe by U2 yields NotFound (the
row is outside U2's queryset), never Forbidden; for tags and ingredients
the same holds for update and delete, while a detail read is answered
MethodNotAllowed for every requester because those viewsets expose no
retrieve action. -/
theorem ownership_masked_as_not_found (db : Db) (u1 u2 : Int) (hne : u1 ≠ u2)
    (r0 : Recipe) (hr : r0 ∈ db.recipes) (hru : r0.user = u1)
    (hrid : ∀ r' ∈ db.recipes, r'.id = r0.id → r' = r0)
    (t0 : Tag) (ht : t0 ∈ db.tags) (htu : t0.user = u1)
    (htid : ∀ t' ∈ db.tags, t'.id = t0.id → t' = t0)
    (i0 : Ingredient) (hi : i0 ∈ db.ingredients) (hiu : i0.user = u1)
    (hiid : ∀ i' ∈ db.ingredients, i'.id = i0.id → i' = i0)
    (p : RecipeUpdatePayload) (tagName ingName : String) :
    retrieveRecipe db u2 r0.id = .notFound ∧
    updateRecipeEndpoint db u2 r0.id p = .notFound ∧
    destroyRecipe db u2 r0.id = .notFound ∧
    updateTag db u2 t0.id tagName = .notFound ∧
    destroyTag db u2 t0.id = .notFound ∧
    updateIngredient db u2 i0.id ingName = .notFound ∧
    destroyIngredient db u2 i0.id = .notFound ∧
    retrieveTag db u2 t0.id = .methodNotAllowed ∧
    retrieveIngredient db u2 i0.id = .methodNotAllowed := by
  have hrn : getObjectRecipe db u2 r0.id = none :=
    getObjectRecipe_other_user_none db u2 r0 hr (hru ▸ hne) hrid
  have htn : getObjectTag db u2 t0.id = none :=
    getObjectTag_other_user_none db u2 t0 ht (htu ▸ hne) htid
  have hin : getObjectIngredient db u2 i0.id = none :=
    getObjectIngredient_other_user_none db u2 i0 hi (hiu ▸ hne) hiid
  refine ⟨?_, ?_, ?_, ?_, ?_, ?_, ?_, rfl, rfl⟩ <;>
    simp [retrieveRecipe, updateRecipeEndpoint, destroyRecipe, updateTag,
      destroyTag, updateIngredient, destroyIngredient, hrn, htn, hin]

/-- Witness for the amended C1 on `dbTwoUsers` (owner 1, requester 2). -/
theorem ownership_masked_as_not_found_witness :
    retrieveRecipe dbTwoUsers 2 1 = .notFound ∧
    updateRecipeEndpoint dbTwoUsers 2 1 payloadNoFields = .notFound ∧
    destroyRecipe dbTwoUsers 2 1 = .notFound ∧
    updateTag dbTwoUsers 2 1 "Raw" = .notFound ∧
    destroyTag dbTwoUsers 2 1 = .notFound ∧
    updateIngredient dbTwoUsers 2 1 "Pepper" = .notFound ∧
    destroyIngredient dbTwoUsers 2 1 = .notFound ∧
    retrieveTag dbTwoUsers 2 1 = .methodNotAllowed ∧
    retrieveIngredient dbTwoUsers 2 1 = .methodNotAllowed :=
  ownership_masked_as_not_found dbTwoUsers 1 2 (by decide)
    ⟨1, 1, "Stew", "Slow", 90, "7.50", "", none, [1], [1]⟩ (by decide) (by decide)
    (by decide)
    ⟨1, 1, "Vegan"⟩ (by decide) (by decide) (by decide)
    ⟨1, 1, "Salt"⟩ (by decide) (by decide) (by decide)
    payloadNoFields "Raw" "Pepper"

/-- C6: listing tags (resp. ingredients) with `assigned_only=1` returns
exactly the requester's tags (resp. ingredients) having at least one
associated recipe — any recipe, not further scoped — and, although the
`recipe__isnull=False` join yields one row per referencing recipe,
`.distinct()` makes each matching item appear exactly once. -/
theorem assigned_only_each_matching_item_once (db : Db) (u : Int) :
    (∃ res, tagList db u (some "1") = .ok res ∧ res.Nodup ∧
      ∀ t, t ∈ res ↔
        (t ∈ db.tags ∧ t.user = u ∧ ∃ r ∈ db.recipes, t.id ∈ r.tags)) ∧
    (∃ res, ingredientList db u (some "1") = .ok res ∧ res.Nodup ∧
      ∀ i, i ∈ res ↔
        (i ∈ db.ingredients ∧ i.user = u ∧ ∃ r ∈ db.recipes, i.id ∈ r.ingredients)) := by
  have e1 : pyInt "1" = some 1 := by decide
  constructor
  · refine ⟨List.insertionSort (fun a b => nameLe a.name b.name = true)
      (((db.tags.flatMap (fun t =>
          (db.recipes.filter (fun r => r.tags.contains t.id)).map (fun _ => t))).filter
        (fun t => t.user == u)).dedup), ?_, ?_, ?_⟩
    · simp [tagList, tagQueryset, baseAttrQueryset, e1]
    · exact (List.perm_insertionSort _ _).nodup_iff.mpr (List.nodup_dedup _)
    · intro t
      rw [mem_sort_dedup_filter]
      simp only [List.mem_flatMap, List.mem_map, List.mem_filter]
      constructor
      · rintro ⟨⟨t', ht', r, ⟨hr, hcon⟩, rfl⟩, hu⟩
        exact ⟨ht', by simpa using hu, r, hr, by simpa using hcon⟩
      · rintro ⟨ht, hu, r, hr, hmem⟩
        exact ⟨⟨t, ht, r, ⟨hr, by simpa using hmem⟩, rfl⟩, by simpa using hu⟩
  · refine ⟨List.insertionSort (fun a b => nameLe a.name b.name = true)
      (((db.ingredients.flatMap (fun i =>
          (db.recipes.filter (fun r => r.ingredients.contains i.id)).map (fun _ => i))).filter
        (fun i => i.user == u)).dedup), ?_, ?_, ?_⟩
    · simp [ingredientList, ingredientQueryset, baseAttrQueryset, e1]
    · exact (List.perm_insertionSort _ _).nodup_iff.mpr (List.nodup_dedup _)
    · intro i
      rw [mem_sort_dedup_filter]
      simp only [List.mem_flatMap, List.mem_map, List.mem_filter]
      constructor
      · rintro ⟨⟨i', hi', r, ⟨hr, hcon⟩, rfl⟩, hu⟩
        exact ⟨hi', by simpa using hu, r, hr, by simpa using hcon⟩
      · rintro ⟨hi, hu, r, hr, hmem⟩
        exact ⟨⟨i, hi, r, ⟨hr, by simpa using hmem⟩, rfl⟩, by simpa using hu⟩

/-- C7: listing recipes with `tags=<id1>,<id2>` returns exactly the
requester's recipes carrying a tag with id1 or a tag with id2 (the union),
and although the `tags__id__in` join yields one row per matching tag,
`.distinct()` makes each recipe appear exactly once even when it carries
both tags. -/
theorem recipe_tag_filter_union_no_duplicates (db : Db) (u id1 id2 : Int)
    (s : String) (hs : paramsToInts s = some [id1, id2]) :
    ∃ res, recipeList db u (some s) none = .ok res ∧ res.Nodup ∧
      ∀ r, r ∈ res ↔
        (r ∈ db.recipes ∧ r.user = u ∧ (id1 ∈ r.tags ∨ id2 ∈ r.tags)) := by
  have hne : s ≠ "" := by
    intro h
    rw [h, show paramsToInts "" = none from by decide] at hs
    exact Option.noConfusion hs
  have ht : truthy (some s) = true := by simp [truthy, hne]
  refine ⟨List.insertionSort (fun a b => b.id ≤ a.id)
      (((applyIdFilter Recipe.tags [id1, id2] db.recipes).filter
        (fun r => r.user == u)).dedup), ?_, ?_, ?_⟩
  · simp [recipeList, recipeQueryset, ht, hs, truthy, hne]
  · exact (List.perm_insertionSort _ _).nodup_iff.mpr (List.nodup_dedup _)
  · intro r
    rw [mem_sort_dedup_filter]
    simp only [applyIdFilter, List.mem_flatMap, List.mem_map, List.mem_filter]
    constructor
    · rintro ⟨⟨r', hr', x, ⟨hx, hcon⟩, rfl⟩, hu⟩
      refine ⟨hr', by simpa using hu, ?_⟩
      have hx12 : x = id1 ∨ x = id2 := by simpa using hcon
      rcases hx12 with h | h
      · exact Or.inl (h ▸ hx)
      · exact Or.inr (h ▸ hx)
    · rintro ⟨hr, hu, hdisj⟩
      rcases hdisj with h | h
      · exact ⟨⟨r, hr, id1, ⟨h, by simp⟩, rfl⟩, by simpa using hu⟩
      · exact ⟨⟨r, hr, id2, ⟨h, by simp⟩, rfl⟩, by simpa using hu⟩

/-- Witness for C7: the parameter string `"1,2"` on `dbTwoUsers`. -/
theorem recipe_tag_filter_union_no_duplicates_witness :
    ∃ res, recipeList dbTwoUsers 1 (some "1,2") none = .ok res ∧ res.Nodup ∧
      ∀ r, r ∈ res ↔
        (r ∈ dbTwoUsers.recipes ∧ r.user = 1 ∧ (1 ∈ r.tags ∨ 2 ∈ r.tags)) :=
  recipe_tag_filter_union_no_duplicates dbTwoUsers 1 1 2 "1,2" (by decide)

/-! ## Duplicate payload names collapse (C5 machinery) -/

/-- After reconciling name `a`, a matching `(u, a)` tag row is found and
is already associated with every recipe row having id `rid`. -/
def TagSeen (u rid : Int) (a : String) (db : Db) : Prop :=
  ∃ t, db.tags.find? (fun t => t.user == u && t.name == a) = some t ∧
    ∀ r ∈ db.recipes, r.id = rid → t.id ∈ r.tags

theorem assoc_mono_addTag (db : Db) (rid tid tid' : Int)
    (h : ∀ r ∈ db.recipes, r.id = rid → tid' ∈ r.tags) :
    ∀ r ∈ (addTagToRecipe db rid tid).recipes, r.id = rid → tid' ∈ r.tags := by
  intro r hr hid
  unfold addTagToRecipe Db.mapRecipe at hr
  simp only [List.mem_map] at hr
  obtain ⟨r1, hr1, hfr⟩ := hr
  subst hfr
  by_cases h1 : (r1.id == rid) = true
  · have hid1 : r1.id = rid := by simpa using h1
    have hold : tid' ∈ r1.tags := h r1 hr1 hid1
    simp only [h1, if_true]
    by_cases hc : tid ∈ r1.tags <;> simp [hc, hold]
  · simp only [h1, if_false] at hid ⊢
    exact h r1 hr1 hid

theorem addTag_noop (db : Db) (rid tid : Int)
    (h : ∀ r ∈ db.recipes, r.id = rid → tid ∈ r.tags) :
    addTagToRecipe db rid tid = db := by
  unfold addTagToRecipe Db.mapRecipe
  have hmap : ∀ r ∈ db.recipes,
      (if r.id == rid then
        { r with tags := if r.tags.contains tid then r.tags else r.tags ++ [tid] }
      else r) = r := by
    intro r hr
    by_cases h1 : (r.id == rid) = true
    · have hid1 : r.id = rid := by simpa using h1
      have hmem : tid ∈ r.tags := h r hr hid1
      simp [h1, hmem]
    · simp [h1]
  rw [List.map_congr_left hmap]
  simp

theorem tagSeen_establish (u rid : Int) (a : String) (db : Db) :
    TagSeen u rid a (getOrCreateTagStep u rid db a) := by
  unfold TagSeen
  cases h : db.tags.find? (fun t => t.user == u && t.name == a) with
  | some t =>
      refine ⟨t, ?_, ?_⟩
      · simp only [getOrCreateTagStep, h]
        exact h
      · simp only [getOrCreateTagStep, h]
        exact mem_tags_after_add db rid t.id
  | none =>
      refine ⟨(⟨db.nextTagId, u, a⟩ : Tag), ?_, ?_⟩
      · simp only [getOrCreateTagStep, h]
        show (db.tags ++ [(⟨db.nextTagId, u, a⟩ : Tag)]).find? _ = _
        rw [List.find?_append, h]
        simp
      · simp only [getOrCreateTagStep, h]
        exact mem_tags_after_add _ rid db.nextTagId

theorem tagSeen_preserved (u rid : Int) (a b : String) (db : Db)
    (hseen : TagSeen u rid a db) :
    TagSeen u rid a (getOrCreateTagStep u rid db b) := by
  unfold TagSeen
  obtain ⟨t, hfind, hassoc⟩ := hseen
  cases h : db.tags.find? (fun t => t.user == u && t.name == b) with
  | some tb =>
      refine ⟨t, ?_, ?_⟩
      · simp only [getOrCreateTagStep, h]
        exact hfind
      · simp only [getOrCreateTagStep, h]
        exact assoc_mono_addTag db rid tb.id t.id hassoc
  | none =>
      refine ⟨t, ?_, ?_⟩
      · simp only [getOrCreateTagStep, h]
        show (db.tags ++ [(⟨db.nextTagId, u, b⟩ : Tag)]).find? _ = _
        rw [List.find?_append, hfind]
        rfl
      · simp only [getOrCreateTagStep, h]
        exact assoc_mono_addTag _ rid db.nextTagId t.id hassoc

theorem tagStep_noop (u rid : Int) (a : String) (db : Db)
    (hseen : TagSeen u rid a db) :
    getOrCreateTagStep u rid db a = db := by
  obtain ⟨t, hfind, hassoc⟩ := hseen
  simp only [getOrCreateTagStep, hfind]
  exact addTag_noop db rid t.id hassoc

theorem tagFold_filter_seen (u rid : Int) (a : String) :
    ∀ (l : List String) (db : Db), TagSeen u rid a db →
      getOrCreateTags u rid l db =
        getOrCreateTags u rid (l.filter (fun m => !(m == a))) db := by
  intro l
  induction l with
  | nil => intro db _; rfl
  | cons b l ih =>
      intro db hseen
      by_cases hba : b = a
      · subst hba
        have hfb : ((b :: l).filter (fun m => !(m == b))) =
            l.filter (fun m => !(m == b)) := by simp
        rw [hfb]
        show getOrCreateTags u rid l (getOrCreateTagStep u rid db b) = _
        rw [tagStep_noop u rid b db hseen]
        exact ih db hseen
      · have hfb : ((b :: l).filter (fun m => !(m == a))) =
            b :: l.filter (fun m => !(m == a)) := by simp [hba]
        rw [hfb]
        show getOrCreateTags u rid l (getOrCreateTagStep u rid db b) =
          getOrCreateTags u rid (l.filter (fun m => !(m == a)))
            (getOrCreateTagStep u rid db b)
        exact ih _ (tagSeen_preserved u rid a b db hseen)

theorem tagFold_dedupFirst_aux (u rid : Int) :
    ∀ (n : Nat) (l : List String), l.length ≤ n → ∀ db : Db,
      getOrCreateTags u rid l db = getOrCreateTags u rid (dedupFirst l) db := by
  intro n
  induction n with
  | zero =>
      intro l hl db
      have : l = [] := List.length_eq_zero.mp (Nat.le_zero.mp hl)
      subst this
      rw [show dedupFirst [] = [] from by rw [dedupFirst]]
  | succ n ih =>
      intro l hl db
      cases l with
      | nil => rw [show dedupFirst [] = [] from by rw [dedupFirst]]
      | cons a t =>
          have hd : dedupFirst (a :: t) =
              a :: dedupFirst (t.filter (fun m => !(m == a))) := by
            rw [dedupFirst]
          rw [hd]
          show getOrCreateTags u rid t (getOrCreateTagStep u rid db a) =
            getOrCreateTags u rid (dedupFirst (t.filter (fun m => !(m == a))))
              (getOrCreateTagStep u rid db a)
          rw [tagFold_filter_seen u rid a t _ (tagSeen_establish u rid a db)]
          exact ih _ (le_trans (List.length_filter_le _ _)
            (Nat.le_of_succ_le_succ hl)) _

theorem mem_ingredients_after_add (db : Db) (rid iid : Int) :
    ∀ r ∈ (addIngredientToRecipe db rid iid).recipes, r.id = rid →
      iid ∈ r.ingredients := by
  intro r hr hid
  unfold addIngredientToRecipe Db.mapRecipe at hr
  simp only [List.mem_map] at hr
  obtain ⟨r1, hr1, hfr⟩ := hr
  subst hfr
  by_cases h1 : (r1.id == rid) = true
  · simp only [h1, if_true]
    by_cases hc : (r1.ingredients.contains iid) = true
    · have hm : iid ∈ r1.ingredients := by simpa using hc
      simp [hm]
    · have hm : iid ∉ r1.ingredients := by simpa using hc
      simp [hm]
  · simp only [h1, if_false] at hid ⊢
    exact absurd (by simpa using hid) (by simpa using h1)

/-- After reconciling name `a`, a matching `(u, a)` ingredient row is
found and already associated with every recipe row having id `rid`. -/
def IngSeen (u rid : Int) (a : String) (db : Db) : Prop :=
  ∃ i, db.ingredients.find? (fun i => i.user == u && i.name == a) = some i ∧
    ∀ r ∈ db.recipes, r.id = rid → i.id ∈ r.ingredients

theorem assoc_mono_addIngredient (db : Db) (rid iid iid' : Int)
    (h : ∀ r ∈ db.recipes, r.id = rid → iid' ∈ r.ingredients) :
    ∀ r ∈ (addIngredientToRecipe db rid iid).recipes, r.id = rid →
      iid' ∈ r.ingredients := by
  intro r hr hid
  unfold addIngredientToRecipe Db.mapRecipe at hr
  simp only [List.mem_map] at hr
  obtain ⟨r1, hr1, hfr⟩ := hr
  subst hfr
  by_cases h1 : (r1.id == rid) = true
  · have hid1 : r1.id = rid := by simpa using h1
    have hold : iid' ∈ r1.ingredients := h r1 hr1 hid1
    simp only [h1, if_true]
    by_cases hc : iid ∈ r1.ingredients <;> simp [hc, hold]
  · simp only [h1, if_false] at hid ⊢
    exact h r1 hr1 hid

theorem addIngredient_noop (db : Db) (rid iid : Int)
    (h : ∀ r ∈ db.recipes, r.id = rid → iid ∈ r.ingredients) :
    addIngredientToRecipe db rid iid = db := by
  unfold addIngredientToRecipe Db.mapRecipe
  have hmap : ∀ r ∈ db.recipes,
      (if r.id == rid then
        { r with ingredients :=
            if r.ingredients.contains iid then r.ingredients
            else r.ingredients ++ [iid] }
      else r) = r := by
    intro r hr
    by_cases h1 : (r.id == rid) = true
    · have hid1 : r.id = rid := by simpa using h1
      have hmem : iid ∈ r.ingredients := h r hr hid1
      simp [h1, hmem]
    · simp [h1]
  rw [List.map_congr_left hmap]
  simp

theorem ingSeen_establish (u rid : Int) (a : String) (db : Db) :
    IngSeen u rid a (getOrCreateIngredientStep u rid db a) := by
  unfold IngSeen
  cases h : db.ingredients.find? (fun i => i.user == u && i.name == a) with
  | some i =>
      refine ⟨i, ?_, ?_⟩
      · simp only [getOrCreateIngredientStep, h]
        exact h
      · simp only [getOrCreateIngredientStep, h]
        exact mem_ingredients_after_add db rid i.id
  | none =>
      refine ⟨(⟨db.nextIngredientId, u, a⟩ : Ingredient), ?_, ?_⟩
      · simp only [getOrCreateIngredientStep, h]
        show (db.ingredients ++ [(⟨db.nextIngredientId, u, a⟩ : Ingredient)]).find? _ = _
        rw [List.find?_append, h]
        simp
      · simp only [getOrCreateIngredientStep, h]
        exact mem_ingredients_after_add _ rid db.nextIngredientId

theorem ingSeen_preserved (u rid : Int) (a b : String) (db : Db)
    (hseen : IngSeen u rid a db) :
    IngSeen u rid a (getOrCreateIngredientStep u rid db b) := by
  unfold IngSeen
  obtain ⟨i, hfind, hassoc⟩ := hseen
  cases h : db.ingredients.find? (fun i => i.user == u && i.name == b) with
  | some ib =>
      refine ⟨i, ?_, ?_⟩
      · simp only [getOrCreateIngredientStep, h]
        exact hfind
      · simp only [getOrCreateIngredientStep, h]
        exact assoc_mono_addIngredient db rid ib.id i.id hassoc
  | none =>
      refine ⟨i, ?_, ?_⟩
      · simp only [getOrCreateIngredientStep, h]
        show (db.ingredients ++ [(⟨db.nextIngredientId, u, b⟩ : Ingredient)]).find? _ = _
        rw [List.find?_append, hfind]
        rfl
      · simp only [getOrCreateIngredientStep, h]
        exact assoc_mono_addIngredient _ rid db.nextIngredientId i.id hassoc

theorem ingStep_noop (u rid : Int) (a : String) (db : Db)
    (hseen : IngSeen u rid a db) :
    getOrCreateIngredientStep u rid db a = db := by
  obtain ⟨i, hfind, hassoc⟩ := hseen
  simp only [getOrCreateIngredientStep, hfind]
  exact addIngredient_noop db rid i.id hassoc

theorem ingFold_filter_seen (u rid : Int) (a : String) :
    ∀ (l : List String) (db : Db), IngSeen u rid a db →
      getOrCreateIngredients u rid l db =
        getOrCreateIngredients u rid (l.filter (fun m => !(m == a))) db := by
  intro l
  induction l with
  | nil => intro db _; rfl
  | cons b l ih =>
      intro db hseen
      by_cases hba : b = a
      · subst hba
        have hfb : ((b :: l).filter (fun m => !(m == b))) =
            l.filter (fun m => !(m == b)) := by simp
        rw [hfb]
        show getOrCreateIngredients u rid l (getOrCreateIngredientStep u rid db b) = _
        rw [ingStep_noop u rid b db hseen]
        exact ih db hseen
      · have hfb : ((b :: l).filter (fun m => !(m == a))) =
            b :: l.filter (fun m => !(m == a)) := by simp [hba]
        rw [hfb]
        show getOrCreateIngredients u rid l (getOrCreateIngredientStep u rid db b) =
          getOrCreateIngredients u rid (l.filter (fun m => !(m == a)))
            (getOrCreateIngredientStep u rid db b)
        exact ih _ (ingSeen_preserved u rid a b db hseen)

theorem ingFold_dedupFirst_aux (u rid : Int) :
    ∀ (n : Nat) (l : List String), l.length ≤ n → ∀ db : Db,
      getOrCreateIngredients u rid l db =
        getOrCreateIngredients u rid (dedupFirst l) db := by
  intro n
  induction n with
  | zero =>
      intro l hl db
      have : l = [] := List.length_eq_zero.mp (Nat.le_zero.mp hl)
      subst this
      rw [show dedupFirst [] = [] from by rw [dedupFirst]]
  | succ n ih =>
      intro l hl db
      cases l with
      | nil => rw [show dedupFirst [] = [] from by rw [dedupFirst]]
      | cons a t =>
          have hd : dedupFirst (a :: t) =
              a :: dedupFirst (t.filter (fun m => !(m == a))) := by
            rw [dedupFirst]
          rw [hd]
          show getOrCreateIngredients u rid t (getOrCreateIngredientStep u rid db a) =
            getOrCreateIngredients u rid (dedupFirst (t.filter (fun m => !(m == a))))
              (getOrCreateIngredientStep u rid db a)
          rw [ingFold_filter_seen u rid a t _ (ingSeen_establish u rid a db)]
          exact ih _ (le_trans (List.length_filter_le _ _)
            (Nat.le_of_succ_le_succ hl)) _

/-- C5: reconciling a tag (resp. ingredient) payload list containing
duplicate names never raises an error (the reconciliation is a total
function) and leaves the store exactly as reconciling the list with the
later duplicates removed: the second occurrence finds the row created for
the first and the M2M `add` is idempotent. -/
theorem duplicate_payload_names_collapse (db : Db) (u rid : Int)
    (names : List String) :
    getOrCreateTags u rid names db = getOrCreateTags u rid (dedupFirst names) db ∧
    getOrCreateIngredients u rid names db =
      getOrCreateIngredients u rid (dedupFirst names) db :=
  ⟨tagFold_dedupFirst_aux u rid names.length names le_rfl db,
   ingFold_dedupFirst_aux u rid names.length names le_rfl db⟩

/-! ## Ownership invariant preservation (C4 machinery) -/

theorem fresh_not_mem_tagIds (db : Db)
    (hfresh : ∀ t ∈ db.tags, t.id < db.nextTagId) :
    db.nextTagId ∉ db.tags.map Tag.id := by
  intro hmem
  obtain ⟨t, ht, hid⟩ := List.mem_map.mp hmem
  exact absurd (hid ▸ hfresh t ht) (lt_irrefl _)

theorem fresh_not_mem_ingredientIds (db : Db)
    (hfresh : ∀ i ∈ db.ingredients, i.id < db.nextIngredientId) :
    db.nextIngredientId ∉ db.ingredients.map Ingredient.id := by
  intro hmem
  obtain ⟨i, hi, hid⟩ := List.mem_map.mp hmem
  exact absurd (hid ▸ hfresh i hi) (lt_irrefl _)

theorem fresh_not_mem_recipeIds (db : Db)
    (hfresh : ∀ r ∈ db.recipes, r.id < db.nextRecipeId) :
    db.nextRecipeId ∉ db.recipes.map Recipe.id := by
  intro hmem
  obtain ⟨r, hr, hid⟩ := List.mem_map.mp hmem
  exact absurd (hid ▸ hfresh r hr) (lt_irrefl _)

theorem own_preserved_map (l : List Recipe) (f : Recipe → Recipe)
    (hid : ∀ r, (f r).id = r.id) (hus : ∀ r, (f r).user = r.user)
    (u rid : Int) (hown : ∀ r ∈ l, r.id = rid → r.user = u) :
    ∀ r ∈ l.map f, r.id = rid → r.user = u := by
  intro r hr hrid
  obtain ⟨r1, hr1, hfr⟩ := List.mem_map.mp hr
  subst hfr
  rw [hus r1]
  exact hown r1 hr1 (by rw [← hid r1]; exact hrid)

theorem append_tag_wf (db : Db) (u : Int) (n : String) (hwf : db.Wf) :
    ({ db with tags := db.tags ++ [⟨db.nextTagId, u, n⟩],
               nextTagId := db.nextTagId + 1 } : Db).Wf := by
  refine ⟨?_, hwf.ingredientIdsNodup, hwf.recipeIdsNodup, ?_,
    hwf.ingredientIdsFresh, hwf.recipeIdsFresh, ?_, hwf.recipeIngredientsOwned⟩
  · rw [List.map_append]
    refine hwf.tagIdsNodup.append (List.nodup_singleton _) ?_
    intro x hx hx2
    have hxeq : x = db.nextTagId := by simpa using hx2
    subst hxeq
    exact fresh_not_mem_tagIds db hwf.tagIdsFresh hx
  · intro t ht
    rcases List.mem_append.mp ht with h | h
    · exact lt_trans (hwf.tagIdsFresh t h) (lt_add_one _)
    · have : t = ⟨db.nextTagId, u, n⟩ := by simpa using h
      subst this
      exact lt_add_one _
  · intro r hr tid htid
    obtain ⟨t, ht, hid, hu⟩ := hwf.recipeTagsOwned r hr tid htid
    exact ⟨t, List.mem_append_left _ ht, hid, hu⟩

theorem append_ingredient_wf (db : Db) (u : Int) (n : String) (hwf : db.Wf) :
    ({ db with ingredients := db.ingredients ++ [⟨db.nextIngredientId, u, n⟩],
               nextIngredientId := db.nextIngredientId + 1 } : Db).Wf := by
  refine ⟨hwf.tagIdsNodup, ?_, hwf.recipeIdsNodup, hwf.tagIdsFresh, ?_,
    hwf.recipeIdsFresh, hwf.recipeTagsOwned, ?_⟩
  · rw [List.map_append]
    refine hwf.ingredientIdsNodup.append (List.nodup_singleton _) ?_
    intro x hx hx2
    have hxeq : x = db.nextIngredientId := by simpa using hx2
    subst hxeq
    exact fresh_not_mem_ingredientIds db hwf.ingredientIdsFresh hx
  · intro i hi
    rcases List.mem_append.mp hi with h | h
    · exact lt_trans (hwf.ingredientIdsFresh i h) (lt_add_one _)
    · have : i = ⟨db.nextIngredientId, u, n⟩ := by simpa using h
      subst this
      exact lt_add_one _
  · intro r hr iid hiid
    obtain ⟨i, hi, hid, hu⟩ := hwf.recipeIngredientsOwned r hr iid hiid
    exact ⟨i, List.mem_append_left _ hi, hid, hu⟩

theorem fresh_preserved_map (l : List Recipe) (f : Recipe → Recipe)
    (hid : ∀ r, (f r).id = r.id) (c : Int) (hfresh : ∀ r ∈ l, r.id < c) :
    ∀ r ∈ l.map f, r.id < c := by
  intro r hr
  obtain ⟨r1, hr1, hfr⟩ := List.mem_map.mp hr
  subst hfr
  rw [hid r1]
  exact hfresh r1 hr1

theorem ingredientsOwned_preserved_map (ings : List Ingredient) (l : List Recipe)
    (f : Recipe → Recipe) (hus : ∀ r, (f r).user = r.user)
    (hing : ∀ r, (f r).ingredients = r.ingredients)
    (h : ∀ r ∈ l, ∀ iid ∈ r.ingredients, ∃ i ∈ ings, i.id = iid ∧ i.user = r.user) :
    ∀ r ∈ l.map f, ∀ iid ∈ r.ingredients, ∃ i ∈ ings, i.id = iid ∧ i.user = r.user := by
  intro r hr iid hiid
  obtain ⟨r1, hr1, hfr⟩ := List.mem_map.mp hr
  subst hfr
  rw [hus r1]
  exact h r1 hr1 iid (by rw [← hing r1]; exact hiid)

theorem tagsOwned_preserved_map (tgs : List Tag) (l : List Recipe)
    (f : Recipe → Recipe) (hus : ∀ r, (f r).user = r.user)
    (htg : ∀ r, (f r).tags = r.tags)
    (h : ∀ r ∈ l, ∀ tid ∈ r.tags, ∃ t ∈ tgs, t.id = tid ∧ t.user = r.user) :
    ∀ r ∈ l.map f, ∀ tid ∈ r.tags, ∃ t ∈ tgs, t.id = tid ∧ t.user = r.user := by
  intro r hr tid htid
  obtain ⟨r1, hr1, hfr⟩ := List.mem_map.mp hr
  subst hfr
  rw [hus r1]
  exact h r1 hr1 tid (by rw [← htg r1]; exact htid)

theorem addTag_preserves_wf (db : Db) (u rid tid : Int) (hwf : db.Wf)
    (hex : ∃ t ∈ db.tags, t.id = tid ∧ t.user = u)
    (hown : ∀ r ∈ db.recipes, r.id = rid → r.user = u) :
    (addTagToRecipe db rid tid).Wf := by
  refine ⟨hwf.tagIdsNodup, hwf.ingredientIdsNodup, ?_, hwf.tagIdsFresh,
    hwf.ingredientIdsFresh, ?_, ?_, ?_⟩
  · show ((db.recipes.map _).map Recipe.id).Nodup
    rw [map_proj_comm _ Recipe.id
      (fun a => by by_cases h2 : (a.id == rid) = true <;> simp [h2])]
    exact hwf.recipeIdsNodup
  · exact fresh_preserved_map _ _
      (fun a => by by_cases h2 : (a.id == rid) = true <;> simp [h2]) _
      hwf.recipeIdsFresh
  · intro r hr tid' htid'
    obtain ⟨r1, hr1, hfr⟩ := List.mem_map.mp hr
    subst hfr
    by_cases h2 : (r1.id == rid) = true
    · simp only [h2, if_true] at htid' ⊢
      by_cases hc : (r1.tags.contains tid) = true
      · simp only [hc, if_true] at htid'
        exact hwf.recipeTagsOwned r1 hr1 tid' htid'
      · have hc' : (r1.tags.contains tid) = false := by simpa using hc
        simp only [hc', Bool.false_eq_true, if_false] at htid'
        rcases List.mem_append.mp htid' with hmem | hmem
        · exact hwf.recipeTagsOwned r1 hr1 tid' hmem
        · have htid'' : tid' = tid := by simpa using hmem
          subst htid''
          obtain ⟨t, ht, hid, hu⟩ := hex
          refine ⟨t, ht, hid, ?_⟩
          rw [hu]
          exact (hown r1 hr1 (by simpa using h2)).symm
    · simp only [h2, Bool.false_eq_true, if_false] at htid' ⊢
      exact hwf.recipeTagsOwned r1 hr1 tid' htid'
  · exact ingredientsOwned_preserved_map _ _ _
      (fun a => by by_cases h2 : (a.id == rid) = true <;> simp [h2])
      (fun a => by by_cases h2 : (a.id == rid) = true <;> simp [h2])
      hwf.recipeIngredientsOwned

theorem addIngredient_preserves_wf (db : Db) (u rid iid : Int) (hwf : db.Wf)
    (hex : ∃ i ∈ db.ingredients, i.id = iid ∧ i.user = u)
    (hown : ∀ r ∈ db.recipes, r.id = rid → r.user = u) :
    (addIngredientToRecipe db rid iid).Wf := by
  refine ⟨hwf.tagIdsNodup, hwf.ingredientIdsNodup, ?_, hwf.tagIdsFresh,
    hwf.ingredientIdsFresh, ?_, ?_, ?_⟩
  · show ((db.recipes.map _).map Recipe.id).Nodup
    rw [map_proj_comm _ Recipe.id
      (fun a => by by_cases h2 : (a.id == rid) = true <;> simp [h2])]
    exact hwf.recipeIdsNodup
  · exact fresh_preserved_map _ _
      (fun a => by by_cases h2 : (a.id == rid) = true <;> simp [h2]) _
      hwf.recipeIdsFresh
  · exact tagsOwned_preserved_map _ _ _
      (fun a => by by_cases h2 : (a.id == rid) = true <;> simp [h2])
      (fun a => by by_cases h2 : (a.id == rid) = true <;> simp [h2])
      hwf.recipeTagsOwned
  · intro r hr iid' hiid'
    obtain ⟨r1, hr1, hfr⟩ := List.mem_map.mp hr
    subst hfr
    by_cases h2 : (r1.id == rid) = true
    · simp only [h2, if_true] at hiid' ⊢
      by_cases hc : (r1.ingredients.contains iid) = true
      · simp only [hc, if_true] at hiid'
        exact hwf.recipeIngredientsOwned r1 hr1 iid' hiid'
      · have hc' : (r1.ingredients.contains iid) = false := by simpa using hc
        simp only [hc', Bool.false_eq_true, if_false] at hiid'
        rcases List.mem_append.mp hiid' with hmem | hmem
        · exact hwf.recipeIngredientsOwned r1 hr1 iid' hmem
        · have hiid'' : iid' = iid := by simpa using hmem
          subst hiid''
          obtain ⟨i, hi, hid, hu⟩ := hex
          refine ⟨i, hi, hid, ?_⟩
          rw [hu]
          exact (hown r1 hr1 (by simpa using h2)).symm
    · simp only [h2, Bool.false_eq_true, if_false] at hiid' ⊢
      exact hwf.recipeIngredientsOwned r1 hr1 iid' hiid'

theorem tagStep_preserves_wf (u rid : Int) (db : Db) (n : String) (hwf : db.Wf)
    (hown : ∀ r ∈ db.recipes, r.id = rid → r.user = u) :
    (getOrCreateTagStep u rid db n).Wf ∧
    ∀ r ∈ (getOrCreateTagStep u rid db n).recipes, r.id = rid → r.user = u := by
  cases h : db.tags.find? (fun t => t.user == u && t.name == n) with
  | some t =>
      have hmem : t ∈ db.tags := List.mem_of_find?_eq_some h
      have hprop := List.find?_some (p := fun t : Tag => t.user == u && t.name == n) h
      have hu : t.user = u := by
        have := Bool.and_elim_left hprop
        simpa using this
      constructor
      · simp only [getOrCreateTagStep, h]
        exact addTag_preserves_wf db u rid t.id hwf ⟨t, hmem, rfl, hu⟩ hown
      · simp only [getOrCreateTagStep, h]
        exact own_preserved_map _ _
          (fun a => by by_cases h2 : (a.id == rid) = true <;> simp [h2])
          (fun a => by by_cases h2 : (a.id == rid) = true <;> simp [h2]) u rid hown
  | none =>
      have hwf' := append_tag_wf db u n hwf
      constructor
      · simp only [getOrCreateTagStep, h]
        refine addTag_preserves_wf _ u rid db.nextTagId hwf' ?_ hown
        exact ⟨⟨db.nextTagId, u, n⟩, List.mem_append_right _ (List.mem_singleton.mpr rfl),
          rfl, rfl⟩
      · simp only [getOrCreateTagStep, h]
        exact own_preserved_map _ _
          (fun a => by by_cases h2 : (a.id == rid) = true <;> simp [h2])
          (fun a => by by_cases h2 : (a.id == rid) = true <;> simp [h2]) u rid hown

theorem ingStep_preserves_wf (u rid : Int) (db : Db) (n : String) (hwf : db.Wf)
    (hown : ∀ r ∈ db.recipes, r.id = rid → r.user = u) :
    (getOrCreateIngredientStep u rid db n).Wf ∧
    ∀ r ∈ (getOrCreateIngredientStep u rid db n).recipes, r.id = rid → r.user = u := by
  cases h : db.ingredients.find? (fun i => i.user == u && i.name == n) with
  | some i =>
      have hmem : i ∈ db.ingredients := List.mem_of_find?_eq_some h
      have hprop := List.find?_some (p := fun i : Ingredient => i.user == u && i.name == n) h
      have hu : i.user = u := by
        have := Bool.and_elim_left hprop
        simpa using this
      constructor
      · simp only [getOrCreateIngredientStep, h]
        exact addIngredient_preserves_wf db u rid i.id hwf ⟨i, hmem, rfl, hu⟩ hown
      · simp only [getOrCreateIngredientStep, h]
        exact own_preserved_map _ _
          (fun a => by by_cases h2 : (a.id == rid) = true <;> simp [h2])
          (fun a => by by_cases h2 : (a.id == rid) = true <;> simp [h2]) u rid hown
  | none =>
      have hwf' := append_ingredient_wf db u n hwf
      constructor
      · simp only [getOrCreateIngredientStep, h]
        refine addIngredient_preserves_wf _ u rid db.nextIngredientId hwf' ?_ hown
        exact ⟨⟨db.nextIngredientId, u, n⟩,
          List.mem_append_right _ (List.mem_singleton.mpr rfl), rfl, rfl⟩
      · simp only [getOrCreateIngredientStep, h]
        exact own_preserved_map _ _
          (fun a => by by_cases h2 : (a.id == rid) = true <;> simp [h2])
          (fun a => by by_cases h2 : (a.id == rid) = true <;> simp [h2]) u rid hown

theorem tagFold_preserves_wf (u rid : Int) (names : List String) :
    ∀ db : Db, db.Wf → (∀ r ∈ db.recipes, r.id = rid → r.user = u) →
      (getOrCreateTags u rid names db).Wf ∧
      ∀ r ∈ (getOrCreateTags u rid names db).recipes, r.id = rid → r.user = u := by
  induction names with
  | nil => intro db hwf hown; exact ⟨hwf, hown⟩
  | cons n ns ih =>
      intro db hwf hown
      obtain ⟨hwf1, hown1⟩ := tagStep_preserves_wf u rid db n hwf hown
      exact ih (getOrCreateTagStep u rid db n) hwf1 hown1

theorem ingFold_preserves_wf (u rid : Int) (names : List String) :
    ∀ db : Db, db.Wf → (∀ r ∈ db.recipes, r.id = rid → r.user = u) →
      (getOrCreateIngredients u rid names db).Wf ∧
      ∀ r ∈ (getOrCreateIngredients u rid names db).recipes, r.id = rid → r.user = u := by
  induction names with
  | nil => intro db hwf hown; exact ⟨hwf, hown⟩
  | cons n ns ih =>
      intro db hwf hown
      obtain ⟨hwf1, hown1⟩ := ingStep_preserves_wf u rid db n hwf hown
      exact ih (getOrCreateIngredientStep u rid db n) hwf1 hown1

theorem clearTags_wf (db : Db) (rid : Int) (hwf : db.Wf) : (clearTags db rid).Wf := by
  refine ⟨hwf.tagIdsNodup, hwf.ingredientIdsNodup, ?_, hwf.tagIdsFresh,
    hwf.ingredientIdsFresh, ?_, ?_, ?_⟩
  · show ((db.recipes.map _).map Recipe.id).Nodup
    rw [map_proj_comm _ Recipe.id
      (fun a => by by_cases h2 : (a.id == rid) = true <;> simp [h2])]
    exact hwf.recipeIdsNodup
  · exact fresh_preserved_map _ _
      (fun a => by by_cases h2 : (a.id == rid) = true <;> simp [h2]) _
      hwf.recipeIdsFresh
  · intro r hr tid htid
    obtain ⟨r1, hr1, hfr⟩ := List.mem_map.mp hr
    subst hfr
    by_cases h2 : (r1.id == rid) = true
    · simp only [h2, if_true] at htid
      exact absurd htid (List.not_mem_nil _)
    · simp only [h2, Bool.false_eq_true, if_false] at htid ⊢
      exact hwf.recipeTagsOwned r1 hr1 tid htid
  · exact ingredientsOwned_preserved_map _ _ _
      (fun a => by by_cases h2 : (a.id == rid) = true <;> simp [h2])
      (fun a => by by_cases h2 : (a.id == rid) = true <;> simp [h2])
      hwf.recipeIngredientsOwned

theorem clearIngredients_wf (db : Db) (rid : Int) (hwf : db.Wf) :
    (clearIngredients db rid).Wf := by
  refine ⟨hwf.tagIdsNodup, hwf.ingredientIdsNodup, ?_, hwf.tagIdsFresh,
    hwf.ingredientIdsFresh, ?_, ?_, ?_⟩
  · show ((db.recipes.map _).map Recipe.id).Nodup
    rw [map_proj_comm _ Recipe.id
      (fun a => by by_cases h2 : (a.id == rid) = true <;> simp [h2])]
    exact hwf.recipeIdsNodup
  · exact fresh_preserved_map _ _
      (fun a => by by_cases h2 : (a.id == rid) = true <;> simp [h2]) _
      hwf.recipeIdsFresh
  · exact tagsOwned_preserved_map _ _ _
      (fun a => by by_cases h2 : (a.id == rid) = true <;> simp [h2])
      (fun a => by by_cases h2 : (a.id == rid) = true <;> simp [h2])
      hwf.recipeTagsOwned
  · intro r hr iid hiid
    obtain ⟨r1, hr1, hfr⟩ := List.mem_map.mp hr
    subst hfr
    by_cases h2 : (r1.id == rid) = true
    · simp only [h2, if_true] at hiid
      exact absurd hiid (List.not_mem_nil _)
    · simp only [h2, Bool.false_eq_true, if_false] at hiid ⊢
      exact hwf.recipeIngredientsOwned r1 hr1 iid hiid

theorem scalars_wf (db : Db) (rid : Int) (p : RecipeUpdatePayload) (hwf : db.Wf) :
    (db.mapRecipe rid (applyScalars p)).Wf := by
  refine ⟨hwf.tagIdsNodup, hwf.ingredientIdsNodup, ?_, hwf.tagIdsFresh,
    hwf.ingredientIdsFresh, ?_, ?_, ?_⟩
  · show ((db.recipes.map _).map Recipe.id).Nodup
    rw [map_proj_comm _ Recipe.id
      (fun a => by by_cases h2 : (a.id == rid) = true <;> simp [h2, applyScalars])]
    exact hwf.recipeIdsNodup
  · exact fresh_preserved_map _ _
      (fun a => by by_cases h2 : (a.id == rid) = true <;> simp [h2, applyScalars]) _
      hwf.recipeIdsFresh
  · exact tagsOwned_preserved_map _ _ _
      (fun a => by by_cases h2 : (a.id == rid) = true <;> simp [h2, applyScalars])
      (fun a => by by_cases h2 : (a.id == rid) = true <;> simp [h2, applyScalars])
      hwf.recipeTagsOwned
  · exact ingredientsOwned_preserved_map _ _ _
      (fun a => by by_cases h2 : (a.id == rid) = true <;> simp [h2, applyScalars])
      (fun a => by by_cases h2 : (a.id == rid) = true <;> simp [h2, applyScalars])
      hwf.recipeIngredientsOwned

theorem append_recipe_wf (db : Db) (u : Int) (r0 : Recipe) (hwf : db.Wf)
    (hid : r0.id = db.nextRecipeId) (hus : r0.user = u)
    (htg : r0.tags = []) (hin : r0.ingredients = []) :
    ({ db with recipes := db.recipes ++ [r0],
               nextRecipeId := db.nextRecipeId + 1 } : Db).Wf ∧
    ∀ r ∈ db.recipes ++ [r0], r.id = db.nextRecipeId → r.user = u := by
  constructor
  · refine ⟨hwf.tagIdsNodup, hwf.ingredientIdsNodup, ?_, hwf.tagIdsFresh,
      hwf.ingredientIdsFresh, ?_, ?_, ?_⟩
    · rw [List.map_append]
      refine hwf.recipeIdsNodup.append (List.nodup_singleton _) ?_
      intro x hx hx2
      have hxeq : x = r0.id := by simpa using hx2
      subst hxeq
      rw [hid] at hx
      exact fresh_not_mem_recipeIds db hwf.recipeIdsFresh hx
    · intro r hr
      rcases List.mem_append.mp hr with h | h
      · exact lt_trans (hwf.recipeIdsFresh r h) (lt_add_one _)
      · have : r = r0 := by simpa using h
        subst this
        rw [hid]
        exact lt_add_one _
    · intro r hr tid htid
      rcases List.mem_append.mp hr with h | h
      · exact hwf.recipeTagsOwned r h tid htid
      · have : r = r0 := by simpa using h
        subst this
        rw [htg] at htid
        exact absurd htid (List.not_mem_nil _)
    · intro r hr iid hiid
      rcases List.mem_append.mp hr with h | h
      · exact hwf.recipeIngredientsOwned r h iid hiid
      · have : r = r0 := by simpa using h
        subst this
        rw [hin] at hiid
        exact absurd hiid (List.not_mem_nil _)
  · intro r hr hrid
    rcases List.mem_append.mp hr with h | h
    · exact absurd hrid (ne_of_lt (hwf.recipeIdsFresh r h))
    · have : r = r0 := by simpa using h
      subst this
      exact hus

theorem createRecipe_preserves_wf (db : Db) (u : Int) (p : RecipeCreatePayload)
    (hwf : db.Wf) : (createRecipe db u p).Wf := by
  obtain ⟨hwf1, hown1⟩ := append_recipe_wf db u
    ⟨db.nextRecipeId, u, p.title, p.description, p.time_minutes, p.price, p.link,
      none, [], []⟩ hwf rfl rfl rfl rfl
  obtain ⟨hwf2, hown2⟩ := tagFold_preserves_wf u db.nextRecipeId (p.tags.getD [])
    _ hwf1 hown1
  exact (ingFold_preserves_wf u db.nextRecipeId (p.ingredients.getD []) _ hwf2 hown2).1

theorem updateInstance_preserves_wf (db : Db) (u rid : Int) (p : RecipeUpdatePayload)
    (hwf : db.Wf) (hown : ∀ r ∈ db.recipes, r.id = rid → r.user = u) :
    (updateRecipeInstance db u rid p).Wf := by
  cases hpt : p.tags with
  | none =>
      cases hpi : p.ingredients with
      | none =>
          simp only [updateRecipeInstance, hpt, hpi]
          exact scalars_wf db rid p hwf
      | some ms =>
          simp only [updateRecipeInstance, hpt, hpi]
          have hwfc := clearIngredients_wf db rid hwf
          have hownc : ∀ r ∈ (clearIngredients db rid).recipes, r.id = rid → r.user = u :=
            own_preserved_map _ _
              (fun a => by by_cases h2 : (a.id == rid) = true <;> simp [h2])
              (fun a => by by_cases h2 : (a.id == rid) = true <;> simp [h2]) u rid hown
          obtain ⟨hwf2, hown2⟩ := ingFold_preserves_wf u rid ms _ hwfc hownc
          exact scalars_wf _ rid p hwf2
  | some ns =>
      have hwfc := clearTags_wf db rid hwf
      have hownc : ∀ r ∈ (clearTags db rid).recipes, r.id = rid → r.user = u :=
        own_preserved_map _ _
          (fun a => by by_cases h2 : (a.id == rid) = true <;> simp [h2])
          (fun a => by by_cases h2 : (a.id == rid) = true <;> simp [h2]) u rid hown
      obtain ⟨hwf1, hown1⟩ := tagFold_preserves_wf u rid ns _ hwfc hownc
      cases hpi : p.ingredients with
      | none =>
          simp only [updateRecipeInstance, hpt, hpi]
          exact scalars_wf _ rid p hwf1
      | some ms =>
          simp only [updateRecipeInstance, hpt, hpi]
          have hwfc2 := clearIngredients_wf _ rid hwf1
          have hownc2 : ∀ r ∈ (clearIngredients (getOrCreateTags u rid ns
              (clearTags db rid)) rid).recipes, r.id = rid → r.user = u :=
            own_preserved_map _ _
              (fun a => by by_cases h2 : (a.id == rid) = true <;> simp [h2])
              (fun a => by by_cases h2 : (a.id == rid) = true <;> simp [h2]) u rid hown1
          obtain ⟨hwf2, hown2⟩ := ingFold_preserves_wf u rid ms _ hwfc2 hownc2
          exact scalars_wf _ rid p hwf2

theorem getObjectRecipe_facts (db : Db) (u pk : Int) (r : Recipe)
    (h : getObjectRecipe db u pk = some r) : r ∈ db.recipes ∧ r.user = u := by
  unfold getObjectRecipe at h
  have hq : recipeQueryset db u none none =
      .ok (List.insertionSort (fun a b => b.id ≤ a.id)
        ((db.recipes.filter (fun x => x.user == u)).dedup)) := rfl
  rw [hq] at h
  have hmem := List.mem_of_find?_eq_some h
  obtain ⟨hin, hp⟩ := (mem_sort_dedup_filter _ _ _ _).mp hmem
  exact ⟨hin, by simpa using hp⟩

/-- C4: every recipe create and every recipe update (through the
owner-scoped endpoint) preserves well-formedness of the store, in
particular the invariant that every tag and ingredient associated with a
recipe is a row owned by the recipe's own user — reconciliation is always
scoped to the authenticated user (`user=auth_user` in get-or-create,
`serializer.save(user=request.user)` on create). -/
theorem recipe_mutations_preserve_attribute_ownership (db : Db) (hwf : db.Wf) :
    (∀ (u : Int) (p : RecipeCreatePayload), (createRecipe db u p).Wf) ∧
    (∀ (u pk : Int) (q : RecipeUpdatePayload) (db' : Db),
      updateRecipeEndpoint db u pk q = .ok db' → db'.Wf) := by
  constructor
  · intro u p
    exact createRecipe_preserves_wf db u p hwf
  · intro u pk q db' h
    unfold updateRecipeEndpoint at h
    cases hobj : getObjectRecipe db u pk with
    | none => rw [hobj] at h; simp at h
    | some r =>
        rw [hobj] at h
        rw [Response.ok.injEq] at h
        subst h
        obtain ⟨hmem, huser⟩ := getObjectRecipe_facts db u pk r hobj
        have hown : ∀ r' ∈ db.recipes, r'.id = r.id → r'.user = u := by
          intro r' hr' hid
          have heq := List.inj_on_of_nodup_map hwf.recipeIdsNodup hr' hmem hid
          rw [heq, huser]
        exact updateInstance_preserves_wf db u r.id q hwf hown

/-- Witness for C4: a create and a successful endpoint update on
`dbTwoUsers` keep the store well-formed. -/
theorem recipe_mutations_preserve_attribute_ownership_witness :
    (createRecipe dbTwoUsers 7 payloadThaiCurry).Wf ∧ dbTwoUsersUpdated.Wf := by
  have hwf : dbTwoUsers.Wf := ⟨by decide, by decide, by decide, by decide,
    by decide, by decide, by decide, by decide⟩
  exact ⟨(recipe_mutations_preserve_attribute_ownership dbTwoUsers hwf).1 7
      payloadThaiCurry,
    (recipe_mutations_preserve_attribute_ownership dbTwoUsers hwf).2 1 1
      payloadClearTags dbTwoUsersUpdated (by decide)⟩
